import Mathlib

/-!
# Verification of `scripts/import_chatgpt_gdpr_sample.py`

A shallow embedding of the ChatGPT GDPR importer: the conversation
linearizer (`build_chat_payload` and its helpers) and the import
orchestrator (selection, state file, chunked delivery with fallback).

Modelling conventions:
* JSON values are the inductive `JsonV`; numbers carry `Int` (the claims
  do not depend on fractional timestamps, and floating point is outside
  the embedding; `int(float(x))` on an integral value is the identity).
* Python dicts are insertion-ordered association lists with unique keys;
  lookup takes the first matching entry.
* Per §3 of the design document, the values of a conversation `mapping`
  are node objects.  On a non-object value the original raises
  `AttributeError` at `candidate.get`; such inputs are outside the
  modelled domain and are embedded as empty objects (`dictOf`).
* `str()` applied to a JSON value (used for roles and message ids) is
  `pyStr`: exact for strings, `None`, booleans and integers; container
  reprs are abstracted as fixed placeholders — they are never equal to
  a role keyword and serve only as opaque id text.
* The wall clock read by `time.time()` inside `as_int_timestamp` when no
  fallback is supplied is threaded explicitly as a `now : Int` argument.
-/

inductive JsonV : Type where
  | nul : JsonV
  | bool : Bool → JsonV
  | num : Int → JsonV
  | str : String → JsonV
  | arr : List JsonV → JsonV
  | obj : List (String × JsonV) → JsonV

/-- Kernel-reducible `str.strip()`: drop whitespace from both ends. -/
def pyTrim (s : String) : String :=
  ⟨((s.data.dropWhile Char.isWhitespace).reverse.dropWhile Char.isWhitespace).reverse⟩

def digitChar : Nat → Char
  | 0 => '0' | 1 => '1' | 2 => '2' | 3 => '3' | 4 => '4'
  | 5 => '5' | 6 => '6' | 7 => '7' | 8 => '8' | _ => '9'

def natToStrAux : Nat → Nat → List Char
  | 0, _ => []
  | fuel + 1, n =>
      if n < 10 then [digitChar n] else natToStrAux fuel (n / 10) ++ [digitChar (n % 10)]

/-- Kernel-reducible decimal rendering of a natural number. -/
def natToStr (n : Nat) : String := ⟨natToStrAux (n + 1) n⟩

/-- Kernel-reducible decimal rendering of an integer (`str(int)`). -/
def intToStr (n : Int) : String :=
  if n < 0 then "-" ++ natToStr n.natAbs else natToStr n.natAbs

def charDigit? (c : Char) : Option Nat :=
  if '0' ≤ c ∧ c ≤ '9' then some (c.toNat - 48) else none

def digitsVal : List Char → Option Nat
  | [] => none
  | cs => cs.foldl (fun acc c =>
      acc.bind (fun a => (charDigit? c).map (fun d => a * 10 + d))) (some 0)

/-- Kernel-reducible integer parsing of a decimal string with an optional
sign (the model of `int(float(s))` on integral strings). -/
def strToInt? (s : String) : Option Int :=
  match s.data with
  | '-' :: rest => (digitsVal rest).map (fun n => -(n : Int))
  | '+' :: rest => (digitsVal rest).map (fun n => (n : Int))
  | cs => (digitsVal cs).map (fun n => (n : Int))

/-- A Python dict holding JSON values. -/
abbrev Dict := List (String × JsonV)

/-- First-match association lookup (`d.get(k)` / `d[k]`). -/
def lookupKey {α : Type} (l : List (String × α)) (k : String) : Option α :=
  (l.find? (fun kv => kv.1 == k)).map Prod.snd

/-- `k in d` for a Python dict. -/
def containsKey {α : Type} (l : List (String × α)) (k : String) : Bool :=
  l.any (fun kv => kv.1 == k)

/-- Python truthiness of a JSON value. -/
def JsonV.truthy : JsonV → Bool
  | .nul => false
  | .bool b => b
  | .num n => n != 0
  | .str s => s != ""
  | .arr xs => !xs.isEmpty
  | .obj fs => !fs.isEmpty

/-- Python `str()` of a JSON value (see module conventions). -/
def pyStr : JsonV → String
  | .str s => s
  | .nul => "None"
  | .bool b => if b then "True" else "False"
  | .num n => intToStr n
  | .arr _ => "[...]"
  | .obj _ => "\x7b...\x7d"

/-- `as_int_timestamp(value, fallback)`: coerce a JSON value to an integer
epoch, returning the fallback for `None` and unparseable values.  String
values are parsed as integer literals (approximating `int(float(s))`,
which the claims never exercise on non-integral strings). -/
def as_int_timestamp (value : Option JsonV) (fallback : Int) : Int :=
  match value with
  | none => fallback
  | some .nul => fallback
  | some (.num n) => n
  | some (.bool b) => if b then 1 else 0
  | some (.str s) =>
      match strToInt? (pyTrim s) with
      | some n => n
      | none => fallback
  | some _ => fallback

mutual

/-- Structural size of a JSON value, used as recursion fuel. -/
def JsonV.size : JsonV → Nat
  | .nul => 1
  | .bool _ => 1
  | .num _ => 1
  | .str _ => 1
  | .arr xs => 1 + JsonV.sizeL xs
  | .obj fs => 1 + JsonV.sizeF fs

def JsonV.sizeL : List JsonV → Nat
  | [] => 0
  | x :: xs => JsonV.size x + JsonV.sizeL xs

def JsonV.sizeF : List (String × JsonV) → Nat
  | [] => 0
  | kv :: fs => JsonV.size kv.2 + JsonV.sizeF fs

end

/-- Priority field names scanned by `best_effort_text`. -/
def preferred_keys : List String :=
  ["text", "content", "summary", "title", "name", "user_instructions", "user_profile"]

/-- Newline join (`"\n".join`). -/
def joinNL (pieces : List String) : String :=
  String.intercalate "\n" pieces

/-- Fueled core of `best_effort_text`.  The fuel only bounds recursion into
nested objects; called with `fuel = sizeOf obj` it never runs out, since
every nested field value has a strictly smaller size. -/
def best_effort_core : Nat → JsonV → String
  | _, .str s => s
  | fuel, .obj fs =>
      let pieces := preferred_keys.filterMap (fun key =>
        match lookupKey fs key with
        | some (.str v) => if pyTrim v ≠ "" then some (pyTrim v) else none
        | some (.arr items) =>
            let strings := items.filterMap (fun it =>
              match it with
              | .str s => if pyTrim s ≠ "" then some (pyTrim s) else none
              | _ => none)
            if strings.isEmpty then none else some (joinNL strings)
        | some (.obj gs) =>
            match fuel with
            | 0 => none
            | fuel' + 1 =>
                let nested := best_effort_core fuel' (.obj gs)
                if nested ≠ "" then some nested else none
        | _ => none)
      if pieces.isEmpty then "" else joinNL pieces
  | _, _ => ""

/-- `best_effort_text(obj)`: scan preferred field names, collecting trimmed
strings, newline-joined string lists, and recursively extracted nested
objects. -/
def best_effort_text (obj : JsonV) : String :=
  best_effort_core (JsonV.size obj) obj

/-- `multimodal_parts_to_text(parts)`. -/
def multimodal_parts_to_text (parts : Option JsonV) : String :=
  match parts with
  | some (.arr ps) =>
      let out := ps.filterMap (fun part =>
        match part with
        | .str s => if pyTrim s ≠ "" then some (pyTrim s) else none
        | .obj pf =>
            let ctv := (lookupKey pf "content_type").getD (.str "unknown")
            match ctv with
            | .str "audio_transcription" =>
                let tv :=
                  let a := (lookupKey pf "text").getD .nul
                  if a.truthy then a else (lookupKey pf "transcript").getD .nul
                (match tv with
                 | .str s => if pyTrim s ≠ "" then some (pyTrim s) else none
                 | _ => none)
            | .str "image_asset_pointer"
            | .str "audio_asset_pointer"
            | .str "real_time_user_audio_video_asset_pointer"
            | .str "video_container_asset_pointer" =>
                let name := pyStr ctv
                (match lookupKey pf "asset_pointer" with
                 | some (.str p) =>
                     if pyTrim p ≠ "" then some ("[" ++ name ++ ": " ++ pyTrim p ++ "]")
                     else some ("[" ++ name ++ "]")
                 | _ => some ("[" ++ name ++ "]"))
            | _ =>
                let text := best_effort_text (.obj pf)
                if text ≠ "" then some text else some ("[" ++ pyStr ctv ++ "]")
        | _ => none)
      let s := pyTrim (joinNL out)
      if s = "" then "[multimodal_text]" else s
  | _ => "[multimodal_text]"

/-- `extract_text(content)`: content-type dispatch.  In the original,
`reasoning_recap`, the listed pass-through types and every unknown type all
perform best-effort extraction with a bracketed type tag fallback; those
branches are merged into the final catch-all, which computes the identical
result. -/
def extract_text (content : Option JsonV) : String :=
  match content with
  | some (.obj fs) =>
      let ctv := (lookupKey fs "content_type").getD (.str "unknown")
      match ctv with
      | .str "text" =>
          let textField :=
            match lookupKey fs "text" with
            | some (.str t) => pyTrim t
            | _ => ""
          (match lookupKey fs "parts" with
           | some (.arr items) =>
               let strings := items.filterMap (fun it =>
                 match it with
                 | .str s => if pyTrim s ≠ "" then some s else none
                 | _ => none)
               if strings.isEmpty then textField else pyTrim (joinNL strings)
           | _ => textField)
      | .str "code" =>
          (match lookupKey fs "text" with
           | some (.str t) =>
               if pyTrim t ≠ "" then
                 match lookupKey fs "language" with
                 | some (.str lang) =>
                     if pyTrim lang ≠ "" then
                       "```" ++ pyTrim lang ++ "\n" ++ pyTrim t ++ "\n```"
                     else pyTrim t
                 | _ => pyTrim t
               else "[code]"
           | _ => "[code]")
      | .str "multimodal_text" => multimodal_parts_to_text (lookupKey fs "parts")
      | _ =>
          let text := best_effort_text (.obj fs)
          if text ≠ "" then text else "[" ++ pyStr ctv ++ "]"
  | _ => ""

/-- `extract_model_slug(message)`: scan metadata keys in priority order. -/
def modelFromKeys (md : Dict) : List String → String
  | [] => "chatgpt-import"
  | k :: ks =>
      match lookupKey md k with
      | some (.str s) => if pyTrim s ≠ "" then pyTrim s else modelFromKeys md ks
      | _ => modelFromKeys md ks

def extract_model_slug (message : Dict) : String :=
  match lookupKey message "metadata" with
  | some (.obj md) => modelFromKeys md ["model_slug", "default_model_slug", "resolved_model_slug"]
  | _ => "chatgpt-import"

/-- `allowed_role(role, include_system, include_tool)`. -/
def allowed_role (role : String) (include_system include_tool : Bool) : Bool :=
  if role = "user" ∨ role = "assistant" then true
  else if role = "system" then include_system
  else if role = "tool" then include_tool
  else false

/-- `str(author.get("role", "")).strip()` with a non-dict author giving `""`. -/
def roleOfMsg (msg : Dict) : String :=
  match lookupKey msg "author" with
  | some (.obj a) => pyTrim (pyStr ((lookupKey a "role").getD (.str "")))
  | _ => ""

/-- One converted target message (`converted` in the original; the constant
fields `done = True`, `context = None` and the empty `options` object are
carried verbatim). -/
structure ConvMsg : Type where
  id : String
  parentId : Option String
  childrenIds : List String
  role : String
  content : String
  model : String
  timestamp : Int
  done : Bool
  context : Option JsonV

/-- Mutable state of the message-conversion loop in `build_chat_payload`. -/
structure BuildState : Type where
  messages_map : List (String × ConvMsg)
  ordered_ids : List String
  assistant_models : List String
  last_id : Option String

/-- `messages_map[k] = v` on a Python dict: overwrite in place if the key
exists, append otherwise. -/
def insertDict (map : List (String × ConvMsg)) (k : String) (v : ConvMsg) :
    List (String × ConvMsg) :=
  match map with
  | [] => [(k, v)]
  | (k', v') :: rest =>
      if k' = k then (k', v) :: rest else (k', v') :: insertDict rest k v

/-- `messages_map[lid]["childrenIds"].append(child)`. -/
def appendChildTo (map : List (String × ConvMsg)) (lid child : String) :
    List (String × ConvMsg) :=
  match map with
  | [] => []
  | (k, v) :: rest =>
      if k = lid then (k, { v with childrenIds := v.childrenIds ++ [child] }) :: rest
      else (k, v) :: appendChildTo rest lid child

/-- Python set insertion (`assistant_models.add`). -/
def insertSet (l : List String) (s : String) : List String :=
  if s ∈ l then l else l ++ [s]

/-- Insertion sort, modelling `sorted` on the distinct model names. -/
def insertSorted (s : String) : List String → List String
  | [] => [s]
  | t :: ts => if s ≤ t then s :: t :: ts else t :: insertSorted s ts

def sortStrings (l : List String) : List String :=
  l.foldr insertSorted []

/-- `message.get("id") or node.get("id") or f"msg-{len(ordered_ids) + 1}"`,
followed by `str(...)`. -/
def preferredId (msg node : Dict) (count : Nat) : String :=
  let v1 := (lookupKey msg "id").getD .nul
  if v1.truthy then pyStr v1
  else
    let v2 := (lookupKey node "id").getD .nul
    if v2.truthy then pyStr v2
    else "msg-" ++ natToStr (count + 1)

/-- Collision handling: suffix the 1-based output position when the
preferred identifier is already a key of the message map. -/
def assignMessageId (map : List (String × ConvMsg)) (preferred : String) (count : Nat) : String :=
  if containsKey map preferred then preferred ++ "-" ++ natToStr (count + 1) else preferred

/-- The child-link update before inserting a new message:
`messages_map[last_id]["childrenIds"].append(message_id)` guarded by
`last_id is not None and last_id in messages_map`. -/
def childLinkedMap (map : List (String × ConvMsg)) (li : Option String) (mid : String) :
    List (String × ConvMsg) :=
  match li with
  | some lid => if containsKey map lid then appendChildTo map lid mid else map
  | none => map

/-- One iteration of the `for node in node_chain` loop. -/
def processNode (include_system include_tool keep_empty : Bool) (convo_ts : Int)
    (st : BuildState) (node : Dict) : BuildState :=
  match lookupKey node "message" with
  | some (.obj msg) =>
      let role := roleOfMsg msg
      if allowed_role role include_system include_tool then
        let content := extract_text (lookupKey msg "content")
        if content = "" ∧ ¬keep_empty then st
        else
          let model_slug := extract_model_slug msg
          let models' :=
            if role = "assistant" then insertSet st.assistant_models model_slug
            else st.assistant_models
          let message_id :=
            assignMessageId st.messages_map (preferredId msg node st.ordered_ids.length)
              st.ordered_ids.length
          let timestamp := as_int_timestamp (lookupKey msg "create_time") convo_ts
          let converted : ConvMsg :=
            { id := message_id, parentId := st.last_id, childrenIds := [],
              role := role, content := content, model := model_slug,
              timestamp := timestamp, done := true, context := none }
          let map1 := childLinkedMap st.messages_map st.last_id message_id
          { messages_map := insertDict map1 message_id converted,
            ordered_ids := st.ordered_ids ++ [message_id],
            assistant_models := models',
            last_id := some message_id }
      else st
  | _ => st

/-- The message-conversion loop over the root-to-leaf node chain. -/
def convertMessages (include_system include_tool keep_empty : Bool) (convo_ts : Int)
    (nodes : List Dict) : BuildState :=
  nodes.foldl (processNode include_system include_tool keep_empty convo_ts)
    ⟨[], [], [], none⟩

/-- View a node value as a Python dict (see module conventions: per §3 the
mapping's values are node objects; a non-object would raise in the
original). -/
def dictOf : JsonV → Dict
  | .obj fs => fs
  | _ => []

/-- The conversation's `mapping`, when it is a JSON object. -/
def mappingOf (convo : Dict) : Option (List (String × Dict)) :=
  match lookupKey convo "mapping" with
  | some (.obj fs) => some (fs.map (fun kv => (kv.1, dictOf kv.2)))
  | _ => none

/-- Fallback leaf: the first node whose `children` is an empty list. -/
def fallbackLeaf (mapping : List (String × Dict)) : Option String :=
  (mapping.find? (fun kv : String × Dict =>
    match lookupKey kv.2 "children" with
    | some (.arr l) => l.isEmpty
    | _ => false)).map Prod.fst

/-- Resolve the active leaf: `current_node` when it is a key of the
mapping, otherwise the first childless node, otherwise none (reject). -/
def resolveLeaf (mapping : List (String × Dict)) (current_node : Option JsonV) :
    Option String :=
  match current_node with
  | some (.str s) => if containsKey mapping s then some s else fallbackLeaf mapping
  | _ => fallbackLeaf mapping

/-- The `while` walk from the leaf toward the root: stop on an id that is
not a mapping key, on a revisited id, or after a node whose `parent` is
absent or not a string.  The fuel argument only bounds the loop; at
`mapping.length + 1` it never runs out (each step visits a fresh key). -/
def walkChain (mapping : List (String × Dict)) :
    Nat → List String → String → List (String × Dict)
  | 0, _, _ => []
  | fuel + 1, visited, node_id =>
      match lookupKey mapping node_id with
      | none => []
      | some node =>
          if node_id ∈ visited then []
          else
            (node_id, node) ::
              (match lookupKey node "parent" with
               | some (.str pid) => walkChain mapping fuel (node_id :: visited) pid
               | _ => [])

/-- The conversion statistics record. -/
structure Stats : Type where
  source_id : Option JsonV
  source_title : Option JsonV
  source_nodes : Nat
  converted_messages : Nat

/-- The converted chat object. -/
structure Chat : Type where
  title : JsonV
  currentId : String
  historyMessages : List (String × ConvMsg)
  models : List String
  messages : List ConvMsg
  timestamp : Int

/-- Placeholder for the unreachable failed map lookup when rebuilding the
ordered message list (every ordered id is a key of the map). -/
def dummyMsg : ConvMsg :=
  { id := "", parentId := none, childrenIds := [], role := "", content := "",
    model := "", timestamp := 0, done := true, context := none }

/-- The conversation's effective timestamp:
`as_int_timestamp(create_time, as_int_timestamp(update_time))`, where the
inner call defaults to the current clock (`now`). -/
def convoTs (convo : Dict) (now : Int) : Int :=
  as_int_timestamp (lookupKey convo "create_time")
    (as_int_timestamp (lookupKey convo "update_time") now)

/-- Final chat assembly from the loop state. -/
def assembleChat (convo : Dict) (convo_ts : Int) (st : BuildState) : Chat :=
  { title :=
      (let t := (lookupKey convo "title").getD .nul
       if t.truthy then t else .str "ChatGPT import"),
    currentId := (st.ordered_ids.getLast?).getD "",
    historyMessages := st.messages_map,
    models :=
      (if st.assistant_models.isEmpty then ["chatgpt-import"]
       else sortStrings st.assistant_models),
    messages := st.ordered_ids.map (fun i => (lookupKey st.messages_map i).getD dummyMsg),
    timestamp := convo_ts }

/-- `build_chat_payload(convo, include_system, include_tool, keep_empty)`.
The clock read used as the last-resort timestamp fallback is the explicit
`now` argument. -/
def build_chat_payload (convo : Dict) (include_system include_tool keep_empty : Bool)
    (now : Int) : Option Chat × Stats :=
  let mapping? := mappingOf convo
  let stats : Stats :=
    { source_id := lookupKey convo "id", source_title := lookupKey convo "title",
      source_nodes := match mapping? with | some m => m.length | none => 0,
      converted_messages := 0 }
  match mapping? with
  | none => (none, stats)
  | some mapping =>
      if mapping.isEmpty then (none, stats)
      else
        match resolveLeaf mapping (lookupKey convo "current_node") with
        | none => (none, stats)
        | some leaf =>
            let node_chain := (walkChain mapping (mapping.length + 1) [] leaf).reverse
            let ts := convoTs convo now
            let st := convertMessages include_system include_tool keep_empty ts
              (node_chain.map Prod.snd)
            if st.ordered_ids.isEmpty then (none, stats)
            else
              (some (assembleChat convo ts st),
               { stats with converted_messages := st.ordered_ids.length })

/-! ## Import orchestrator

The persisted state file is modelled at the line level: a `List String`
of lines.  `append_state_ids` writes one line per non-empty id (ids in a
real GDPR export are UUIDs and contain no newline; an id containing a
newline would span several lines of the real file and is outside the
line-level model).  Network delivery (`post_import`) is abstracted by an
oracle mapping the index of each HTTP call to its outcome. -/

/-- `load_state_ids`: read the newline-delimited state file, trimming
lines and dropping empty ones. -/
def load_state_ids (file : List String) : List String :=
  file.filterMap (fun line => let v := pyTrim line; if v = "" then none else some v)

/-- `append_state_ids`: append one line per non-empty id. -/
def append_state_ids (file : List String) (ids : List String) : List String :=
  file ++ ids.filter (fun sid => sid ≠ "")

/-- `str(convo.get("id", ""))`: the selection-phase rendering of a
conversation's source id (absent key gives `""`, a null value gives
`"None"`). -/
def sidOfConvo (convo : Dict) : String :=
  match lookupKey convo "id" with
  | none => ""
  | some v => pyStr v

/-- `str(item.get("source_id", ""))` on a stats record: the key is always
present, so an absent conversation id renders as `"None"`. -/
def appendSidOfStats (s : Stats) : String :=
  match s.source_id with
  | none => "None"
  | some v => pyStr v

/-- `len(selected_forms) >= target_count` when a target count is set. -/
def targetReached (target : Option Nat) (len : Nat) : Bool :=
  match target with
  | some t => decide (len ≥ t)
  | none => false

/-- The selection loop of `main`: iterate candidates (already in shuffled
or original order), skip ids found in the local state or the remote dedup
set, convert the rest, stop once the target count is reached.  Returns the
selected stats records and the two skip counters. -/
def selectLoop (state_ids remote_ids : List String)
    (include_system include_tool keep_empty : Bool) (now : Int) (target : Option Nat) :
    List JsonV → List Stats → Nat → Nat → List Stats × Nat × Nat
  | [], acc, s1, s2 => (acc, s1, s2)
  | c :: rest, acc, s1, s2 =>
      match c with
      | .obj convo =>
          let sid := sidOfConvo convo
          if sid ≠ "" ∧ sid ∈ state_ids then
            selectLoop state_ids remote_ids include_system include_tool keep_empty now target
              rest acc (s1 + 1) s2
          else if sid ≠ "" ∧ sid ∈ remote_ids then
            selectLoop state_ids remote_ids include_system include_tool keep_empty now target
              rest acc s1 (s2 + 1)
          else
            match build_chat_payload convo include_system include_tool keep_empty now with
            | (some _, stats) =>
                let acc' := acc ++ [stats]
                if targetReached target acc'.length then
                  (acc', s1, s2)
                else
                  selectLoop state_ids remote_ids include_system include_tool keep_empty now
                    target rest acc' s1 s2
            | (none, _) =>
                selectLoop state_ids remote_ids include_system include_tool keep_empty now
                  target rest acc s1 s2
      | _ =>
          selectLoop state_ids remote_ids include_system include_tool keep_empty now target
            rest acc s1 s2

/-- The whole selection phase. -/
def selectConvos (conversations : List JsonV) (state_ids remote_ids : List String)
    (include_system include_tool keep_empty : Bool) (now : Int) (target : Option Nat) :
    List Stats × Nat × Nat :=
  selectLoop state_ids remote_ids include_system include_tool keep_empty now target
    conversations [] 0 0

/-- Outcome of one `post_import` HTTP call: a success response whose body
lists `n` created chats, or a transport/HTTP failure. -/
inductive PostResult : Type where
  | ok (n : Nat) : PostResult
  | err : PostResult

/-- Log record of one delivery call: the source-id strings of the
conversations the call contained, whether it was an individual (fallback)
call, whether it succeeded, and the reported number of imported chats. -/
structure CallRec : Type where
  sids : List String
  single : Bool
  succeeded : Bool
  n : Nat
deriving Repr, DecidableEq

/-- Running state of `import_with_chunks`: the counters, the state file,
the call log, the index of the next HTTP call, and whether an error was
re-raised (aborting the run). -/
structure RunState : Type where
  imported_count : Nat
  failed_count : Nat
  file : List String
  calls : List CallRec
  callIdx : Nat
  aborted : Bool
deriving Repr, DecidableEq

def initRunState (file : List String) : RunState :=
  { imported_count := 0, failed_count := 0, file := file, calls := [],
    callIdx := 0, aborted := false }

/-- One individual fallback delivery (`post_import` on a single chat):
on success append the id to the state file, on failure count it. -/
def runSingle (oracle : Nat → PostResult) (st : RunState) (stat : Stats) : RunState :=
  let sid := appendSidOfStats stat
  match oracle st.callIdx with
  | .ok n =>
      { st with
        imported_count := st.imported_count + n,
        file := append_state_ids st.file [sid],
        calls := st.calls ++ [⟨[sid], true, true, n⟩],
        callIdx := st.callIdx + 1 }
  | .err =>
      { st with
        failed_count := st.failed_count + 1,
        calls := st.calls ++ [⟨[sid], true, false, 0⟩],
        callIdx := st.callIdx + 1 }

/-- One chunk of `import_with_chunks`: try the bulk call; on success append
all the chunk's ids; on failure abort when `continue_on_error` is off,
otherwise fall back to one call per conversation.  A previously aborted
run processes nothing (the exception has propagated). -/
def runChunk (oracle : Nat → PostResult) (continue_on_error : Bool)
    (st : RunState) (chunk : List Stats) : RunState :=
  if st.aborted then st
  else
    let sids := chunk.map appendSidOfStats
    match oracle st.callIdx with
    | .ok n =>
        { st with
          imported_count := st.imported_count + n,
          file := append_state_ids st.file sids,
          calls := st.calls ++ [⟨sids, false, true, n⟩],
          callIdx := st.callIdx + 1 }
    | .err =>
        let st1 : RunState :=
          { st with
            calls := st.calls ++ [⟨sids, false, false, 0⟩],
            callIdx := st.callIdx + 1 }
        if continue_on_error then chunk.foldl (runSingle oracle) st1
        else { st1 with aborted := true }

/-- `import_with_chunks` over an already-chunked selection. -/
def processChunks (oracle : Nat → PostResult) (continue_on_error : Bool)
    (chunks : List (List Stats)) (st : RunState) : RunState :=
  chunks.foldl (runChunk oracle continue_on_error) st

/-- Partition the selection into chunks of size `k`
(`range(0, total, chunk_size)`); `import_with_chunks` replaces a
non-positive size by the total, so `k = 0` only occurs with an empty
selection (`main` returns before importing an empty selection). -/
def chunksOf (k : Nat) : Nat → List Stats → List (List Stats)
  | _, [] => []
  | 0, _ => []
  | fuel + 1, l => if k = 0 then [] else l.take k :: chunksOf k fuel (l.drop k)

/-- The effective chunk size (`if chunk_size <= 0: chunk_size = total`). -/
def effectiveChunk (chunk_size total : Nat) : Nat :=
  if chunk_size = 0 then total else chunk_size

/-- Run the delivery phase on a selection. -/
def importWithChunks (oracle : Nat → PostResult) (continue_on_error : Bool)
    (chunk_size : Nat) (selected : List Stats) (file : List String) : RunState :=
  processChunks oracle continue_on_error
    (chunksOf (effectiveChunk chunk_size selected.length) selected.length selected)
    (initRunState file)

/-- The exit status computation at the end of `main`. -/
def exit_code_of (failed_count : Nat) (continue_on_error : Bool) : Nat :=
  if failed_count > 0 ∧ continue_on_error then 0
  else if failed_count > 0 then 1 else 0

/-! ## Concrete inputs used by witnesses and counterexamples -/

/-- A message object with a plain-text part. -/
def mkTextMsg (mid role txt : String) : JsonV :=
  .obj [("id", .str mid), ("author", .obj [("role", .str role)]),
        ("content", .obj [("content_type", .str "text"), ("parts", .arr [.str txt])])]

/-- The worked example of §8: a root node without a message and one `user`
node saying `hello`. -/
def specConvo : Dict :=
  [("id", .str "conv-1"), ("title", .str "T"), ("create_time", .num 100),
   ("current_node", .str "a"),
   ("mapping", .obj
     [("root", .obj [("id", .str "root"), ("children", .arr [.str "a"]), ("message", .nul)]),
      ("a", .obj [("id", .str "a"), ("parent", .str "root"), ("children", .arr []),
                  ("message", mkTextMsg "m-a" "user" "hello")])])]

/-- A two-message conversation (user then assistant). -/
def twoMsgConvo : Dict :=
  [("id", .str "conv-2"), ("title", .str "Two"), ("create_time", .num 50),
   ("current_node", .str "b"),
   ("mapping", .obj
     [("root", .obj [("id", .str "root"), ("children", .arr [.str "a"]), ("message", .nul)]),
      ("a", .obj [("id", .str "a"), ("parent", .str "root"), ("children", .arr [.str "b"]),
                  ("message", mkTextMsg "m-a" "user" "hello")]),
      ("b", .obj [("id", .str "b"), ("parent", .str "a"), ("children", .arr []),
                  ("message", mkTextMsg "m-b" "assistant" "hi there")])])]

/-- Message ids `x-3`, `x`, `x`: the third preferred id collides with the
second, and the disambiguated replacement `x-3` collides with the first. -/
def dupIdConvoC2 : Dict :=
  [("id", .str "conv-dup2"), ("create_time", .num 5), ("current_node", .str "n3"),
   ("mapping", .obj
     [("n1", .obj [("children", .arr [.str "n2"]), ("message", mkTextMsg "x-3" "user" "one")]),
      ("n2", .obj [("parent", .str "n1"), ("children", .arr [.str "n3"]),
                   ("message", mkTextMsg "x" "user" "two")]),
      ("n3", .obj [("parent", .str "n2"), ("children", .arr []),
                   ("message", mkTextMsg "x" "user" "three")])])]

/-- Same collision shape with ids `y-3`, `y`, `y`. -/
def dupIdConvoC1 : Dict :=
  [("id", .str "conv-dup1"), ("create_time", .num 5), ("current_node", .str "n3"),
   ("mapping", .obj
     [("n1", .obj [("children", .arr [.str "n2"]), ("message", mkTextMsg "y-3" "user" "one")]),
      ("n2", .obj [("parent", .str "n1"), ("children", .arr [.str "n3"]),
                   ("message", mkTextMsg "y" "user" "two")]),
      ("n3", .obj [("parent", .str "n2"), ("children", .arr []),
                   ("message", mkTextMsg "y" "user" "three")])])]

/-- A convertible conversation without timestamps: the effective timestamp
falls back to the clock. -/
def noTsConvo : Dict :=
  [("id", .str "conv-nt"), ("current_node", .str "a"),
   ("mapping", .obj
     [("a", .obj [("id", .str "a"), ("children", .arr []),
                  ("message", mkTextMsg "m-a" "user" "hello")])])]

/-- A convertible conversation without an `id` field. -/
def noIdConvo : Dict :=
  [("current_node", .str "a"),
   ("create_time", .num 7),
   ("mapping", .obj
     [("a", .obj [("id", .str "a"), ("children", .arr []),
                  ("message", mkTextMsg "m-a" "user" "hello")])])]

/-- A role-accepted node whose extracted content is empty. -/
def emptyContentNode : Dict :=
  [("message", .obj [("author", .obj [("role", .str "user")]),
                     ("content", .obj [("content_type", .str "text")])])]

/-- The chat produced from `twoMsgConvo` (projection of the run). -/
def twoMsgChat : Chat :=
  ((build_chat_payload twoMsgConvo false false false 0).1).getD
    ⟨.nul, "", [], [], [], 0⟩

def twoMsgStats : Stats := (build_chat_payload twoMsgConvo false false false 0).2

/-! ## Proof-side helper definitions -/

/-- The linear-chain shape of a converted message list: the head's parent
is `p`, every message's `childrenIds` is exactly the next message's id
(empty for the last), and each message is the parent of the next. -/
def chainFrom : Option String → List ConvMsg → Prop
  | _, [] => True
  | p, m :: rest =>
      m.parentId = p ∧
      m.childrenIds = (match rest with | [] => [] | n :: _ => [n.id]) ∧
      chainFrom (some m.id) rest

/-- Append a child id to the last message's `childrenIds`. -/
def setLastChild (c : String) : List ConvMsg → List ConvMsg
  | [] => []
  | [m] => [{ m with childrenIds := m.childrenIds ++ [c] }]
  | m :: rest => m :: setLastChild c rest

/-- Value-level invariant of the conversion loop: map values carry their
key as id, and every ordered id is a key of the map. -/
def StructInv (st : BuildState) : Prop :=
  (∀ k v, lookupKey st.messages_map k = some v → v.id = k) ∧
  (∀ i ∈ st.ordered_ids, containsKey st.messages_map i = true)

/-- Chain invariant of the conversion loop, conditional on the ordered ids
being distinct: the map is exactly the ordered message list keyed by id,
and that list is a linear chain. -/
def ChainInv (st : BuildState) : Prop :=
  st.ordered_ids.Nodup →
  ∃ msgs : List ConvMsg,
    st.messages_map = msgs.map (fun m => (m.id, m)) ∧
    msgs.map ConvMsg.id = st.ordered_ids ∧
    st.last_id = st.ordered_ids.getLast? ∧
    chainFrom none msgs

/-- The walk's parent link: `node.get("parent")` when it is a string. -/
def parentStr (node : Dict) : Option String :=
  match lookupKey node "parent" with
  | some (.str p) => some p
  | _ => none

/-- Number of mapping keys not yet visited (the walk's termination
measure). -/
def countUnvisited (mapping : List (String × Dict)) (visited : List String) : Nat :=
  ((mapping.map Prod.fst).filter (fun k => decide (k ∉ visited))).length

/-- The selection-phase rendering of a stats record's source id
(equal to `sidOfConvo` of its conversation whenever that is non-empty). -/
def sidOfStats (s : Stats) : String :=
  match s.source_id with
  | none => ""
  | some v => pyStr v

/-- Replay of the state-file appends of the successful calls of a log, in
order. -/
def replayAppends (file : List String) (calls : List CallRec) : List String :=
  calls.foldl (fun f c => if c.succeeded then append_state_ids f c.sids else f) file

/-- Invariant of a fallback-enabled (`--continue-on-error`) run: never
aborted, the failure counter counts exactly the failed individual calls,
the import counter sums the successful calls' reported sizes, and every
conversation of a failed bulk call is retried individually. -/
def InvT (st : RunState) : Prop :=
  st.aborted = false ∧
  st.failed_count = (st.calls.filter (fun c => c.single && !c.succeeded)).length ∧
  st.imported_count = ((st.calls.filter (fun c => c.succeeded)).map CallRec.n).sum ∧
  (∀ c ∈ st.calls, c.single = false → c.succeeded = false →
     ∀ sid ∈ c.sids, ∃ c2 ∈ st.calls, c2.single = true ∧ c2.sids = [sid])

/-- Invariant of a fallback-disabled run: aborted exactly when some call
failed, and only the last call can have failed (the exception propagates
immediately). -/
def InvF (st : RunState) : Prop :=
  (st.aborted = true ↔ ∃ c ∈ st.calls, c.succeeded = false) ∧
  (∀ c ∈ st.calls.dropLast, c.succeeded = true)

/-! ## Basic lemmas -/

theorem str_append_ne_empty (s t : String) (h : s ≠ "") : s ++ t ≠ "" := by
  intro he
  apply h
  have hd := congrArg String.data he
  rw [String.data_append] at hd
  have hsd : s.data = [] := (List.append_eq_nil.mp hd).1
  cases s with
  | mk d => simp_all

theorem multimodal_ne_empty (p : Option JsonV) : multimodal_parts_to_text p ≠ "" := by
  unfold multimodal_parts_to_text
  match p with
  | none => simp
  | some .nul => simp
  | some (.arr ps) =>
      simp only
      split
      · simp
      · assumption
  | some (.bool b) => simp
  | some (.num n) => simp
  | some (.str s) => simp
  | some (.obj fs) => simp

theorem catchall_ne_empty (fs : Dict) (v : JsonV) :
    (if best_effort_text (.obj fs) ≠ "" then best_effort_text (.obj fs)
     else "[" ++ pyStr v ++ "]") ≠ "" := by
  split
  · assumption
  · exact str_append_ne_empty _ _ (str_append_ne_empty _ _ (by decide))

/-- **C10.** Text extraction on a JSON-object content whose `content_type`
is not `text` always yields a non-empty string (at worst a bracketed
placeholder), so the emptiness filter can only drop messages whose content
is not an object or has content type `text`. -/
theorem extract_text_nonempty_of_not_text (fs : Dict)
    (h : lookupKey fs "content_type" ≠ some (.str "text")) :
    extract_text (some (.obj fs)) ≠ "" := by
  unfold extract_text
  simp only
  split
  · rename_i heq
    cases hl : lookupKey fs "content_type" with
    | none => rw [hl] at heq; simp [Option.getD] at heq
    | some v =>
        rw [hl] at heq; simp only [Option.getD] at heq
        exact absurd (hl.trans (congrArg some heq)) h
  · split
    · rename_i t ht
      split
      · split
        · rename_i lang hlang
          split
          · exact str_append_ne_empty _ _ (str_append_ne_empty _ _
              (str_append_ne_empty _ _ (str_append_ne_empty _ _ (by decide))))
          · assumption
        · assumption
      · decide
    · decide
  · exact multimodal_ne_empty _
  · exact catchall_ne_empty _ _

/-- Witness for C10 at a concrete `code` content object. -/
theorem extract_text_nonempty_of_not_text_witness :
    lookupKey [("content_type", JsonV.str "code")] "content_type" ≠ some (.str "text") ∧
    extract_text (some (.obj [("content_type", .str "code")])) ≠ "" :=
  ⟨by simp [lookupKey], extract_text_nonempty_of_not_text _ (by simp [lookupKey])⟩

/-! ## Association-list lemmas -/

theorem lookupKey_nil {α : Type} (k : String) : lookupKey ([] : List (String × α)) k = none := by
  simp [lookupKey]

theorem lookupKey_cons {α : Type} (k0 : String) (v0 : α) (rest : List (String × α)) (k : String) :
    lookupKey ((k0, v0) :: rest) k = if k0 = k then some v0 else lookupKey rest k := by
  by_cases h : k0 = k
  · subst h
    simp [lookupKey, List.find?_cons_of_pos]
  · rw [if_neg h]
    unfold lookupKey
    rw [List.find?_cons_of_neg _ (by simpa using h)]

theorem insertDict_cons (k0 : String) (v0 : ConvMsg) (rest : List (String × ConvMsg))
    (k : String) (v : ConvMsg) :
    insertDict ((k0, v0) :: rest) k v =
      if k0 = k then (k0, v) :: rest else (k0, v0) :: insertDict rest k v := rfl

theorem appendChildTo_cons (k0 : String) (v0 : ConvMsg) (rest : List (String × ConvMsg))
    (lid c : String) :
    appendChildTo ((k0, v0) :: rest) lid c =
      if k0 = lid then (k0, { v0 with childrenIds := v0.childrenIds ++ [c] }) :: rest
      else (k0, v0) :: appendChildTo rest lid c := rfl

theorem containsKey_nil {α : Type} (k : String) :
    containsKey ([] : List (String × α)) k = false := by
  simp [containsKey]

theorem containsKey_cons {α : Type} (k0 : String) (v0 : α) (rest : List (String × α))
    (k : String) :
    containsKey ((k0, v0) :: rest) k = ((k0 == k) || containsKey rest k) := by
  simp [containsKey]

theorem lookupKey_insertDict_self (m : List (String × ConvMsg)) (k : String) (v : ConvMsg) :
    lookupKey (insertDict m k v) k = some v := by
  induction m with
  | nil => simp [insertDict, lookupKey_cons]
  | cons kv rest ih =>
      obtain ⟨k0, v0⟩ := kv
      rw [insertDict_cons]
      by_cases hk : k0 = k
      · rw [if_pos hk, lookupKey_cons, if_pos hk]
      · rw [if_neg hk, lookupKey_cons, if_neg hk, ih]

theorem lookupKey_insertDict_ne (m : List (String × ConvMsg)) (k k' : String) (v : ConvMsg)
    (h : k' ≠ k) : lookupKey (insertDict m k v) k' = lookupKey m k' := by
  induction m with
  | nil =>
      show lookupKey [(k, v)] k' = lookupKey [] k'
      rw [lookupKey_cons, lookupKey_nil, if_neg (fun he => h he.symm)]
  | cons kv rest ih =>
      obtain ⟨k0, v0⟩ := kv
      rw [insertDict_cons]
      by_cases hk : k0 = k
      · rw [if_pos hk, lookupKey_cons, lookupKey_cons,
          if_neg (fun he : k0 = k' => h (hk ▸ he.symm)),
          if_neg (fun he : k0 = k' => h (hk ▸ he.symm))]
      · rw [if_neg hk, lookupKey_cons, lookupKey_cons, ih]

theorem lookupKey_appendChildTo (m : List (String × ConvMsg)) (lid c k : String) :
    lookupKey (appendChildTo m lid c) k =
      if k = lid then
        (lookupKey m lid).map (fun v => { v with childrenIds := v.childrenIds ++ [c] })
      else lookupKey m k := by
  induction m with
  | nil => split <;> simp [appendChildTo, lookupKey_nil]
  | cons kv rest ih =>
      obtain ⟨k0, v0⟩ := kv
      rw [appendChildTo_cons]
      by_cases h0 : k0 = lid
      · rw [if_pos h0]
        by_cases hk : k = lid
        · rw [if_pos hk, lookupKey_cons, lookupKey_cons, if_pos (h0.trans hk.symm),
            if_pos h0]
          rfl
        · rw [if_neg hk, lookupKey_cons, lookupKey_cons,
            if_neg (fun he : k0 = k => hk (he ▸ h0)),
            if_neg (fun he : k0 = k => hk (he ▸ h0))]
      · rw [if_neg h0]
        by_cases hk : k = lid
        · rw [if_pos hk, lookupKey_cons, lookupKey_cons,
            if_neg (fun he : k0 = k => h0 (he.trans hk)), ih, if_pos hk,
            if_neg (fun he : k0 = lid => h0 he)]
        · rw [if_neg hk, lookupKey_cons, lookupKey_cons]
          by_cases h0k : k0 = k
          · rw [if_pos h0k, if_pos h0k]
          · rw [if_neg h0k, if_neg h0k, ih, if_neg hk]

theorem containsKey_appendChildTo (m : List (String × ConvMsg)) (lid c k : String) :
    containsKey (appendChildTo m lid c) k = containsKey m k := by
  induction m with
  | nil => simp [appendChildTo]
  | cons kv rest ih =>
      obtain ⟨k0, v0⟩ := kv
      rw [appendChildTo_cons]
      by_cases h0 : k0 = lid
      · rw [if_pos h0, containsKey_cons, containsKey_cons]
      · rw [if_neg h0, containsKey_cons, containsKey_cons, ih]

theorem containsKey_eq_false_iff {α : Type} (m : List (String × α)) (k : String) :
    containsKey m k = false ↔ lookupKey m k = none := by
  induction m with
  | nil => simp [containsKey_nil, lookupKey_nil]
  | cons kv rest ih =>
      obtain ⟨k0, v0⟩ := kv
      by_cases h0 : k0 = k <;> simp [containsKey_cons, lookupKey_cons, h0, ih]

theorem containsKey_of_lookup {α : Type} (m : List (String × α)) (k : String) (v : α)
    (h : lookupKey m k = some v) : containsKey m k = true := by
  cases hc : containsKey m k
  · rw [(containsKey_eq_false_iff m k).mp hc] at h
    cases h
  · rfl

theorem insertDict_of_fresh (m : List (String × ConvMsg)) (k : String) (v : ConvMsg)
    (h : containsKey m k = false) : insertDict m k v = m ++ [(k, v)] := by
  induction m with
  | nil => simp [insertDict]
  | cons kv rest ih =>
      obtain ⟨k0, v0⟩ := kv
      rw [containsKey_cons] at h
      simp only [Bool.or_eq_false_iff, beq_eq_false_iff_ne, ne_eq] at h
      rw [insertDict_cons, if_neg h.1, ih h.2, List.cons_append]

/-! ## C9: emptiness filtering -/

/-- **C9.** A role-accepted message with empty extracted content is dropped
when `keep_empty` is off and retained (with empty content) when it is on;
a message with non-empty content is appended regardless of the flag. -/
theorem processNode_content_filter (is it : Bool) (ts : Int) (st : BuildState)
    (node msg : Dict)
    (hm : lookupKey node "message" = some (.obj msg))
    (hr : allowed_role (roleOfMsg msg) is it = true) :
    (extract_text (lookupKey msg "content") = "" →
        processNode is it false ts st node = st) ∧
    (∀ ke : Bool, (extract_text (lookupKey msg "content") ≠ "" ∨ ke = true) →
        ∃ mid r, (processNode is it ke ts st node).ordered_ids = st.ordered_ids ++ [mid] ∧
          lookupKey (processNode is it ke ts st node).messages_map mid = some r ∧
          r.content = extract_text (lookupKey msg "content")) := by
  constructor
  · intro hc
    unfold processNode
    rw [hm]
    simp only [hr, if_true, hc]
    simp
  · intro ke hke
    unfold processNode
    rw [hm]
    simp only [hr, if_true]
    have hcond : ¬(extract_text (lookupKey msg "content") = "" ∧ ¬ke = true) := by
      rcases hke with h | h
      · exact fun hand => h hand.1
      · exact fun hand => hand.2 h
    rw [if_neg hcond]
    refine ⟨_, _, rfl, lookupKey_insertDict_self _ _ _, rfl⟩

/-- Witness for C9: an empty-content user message is dropped. -/
theorem processNode_content_filter_witness :
    processNode false false false 0 ⟨[], [], [], none⟩ emptyContentNode = ⟨[], [], [], none⟩ :=
  (processNode_content_filter false false 0 ⟨[], [], [], none⟩ emptyContentNode
    [("author", .obj [("role", .str "user")]),
     ("content", .obj [("content_type", .str "text")])] rfl rfl).1 rfl

/-! ## C2: identifier disambiguation -/

/-- **C2 (amended).** When the preferred identifier collides with a key of
the message map, the suffixed replacement differs from the preferred
identifier (it is strictly longer); distinctness from every other
previously assigned identifier is not guaranteed (see the
counterexample). -/
theorem assignMessageId_ne_preferred (m : List (String × ConvMsg)) (p : String) (c : Nat)
    (h : containsKey m p = true) : assignMessageId m p c ≠ p := by
  unfold assignMessageId
  rw [h]
  simp only [if_true]
  intro he
  have hl := congrArg String.length he
  rw [String.length_append, String.length_append] at hl
  have h1 : ("-" : String).length = 1 := rfl
  rw [h1] at hl
  omega

/-- Witness for the amended C2. -/
theorem assignMessageId_ne_preferred_witness :
    containsKey [("x", dummyMsg)] "x" = true ∧
    assignMessageId [("x", dummyMsg)] "x" 0 ≠ "x" :=
  ⟨rfl, assignMessageId_ne_preferred _ _ _ rfl⟩

/-- **C2 counterexample.** On message ids `x-3`, `x`, `x`, the third
message's disambiguated id `x-3` collides with the first: the assigned
identifiers are not pairwise distinct. -/
theorem dup_ids_cex :
    ((build_chat_payload dupIdConvoC2 false false false 0).1.map
        (fun ch : Chat => ch.messages.map ConvMsg.id)) = some ["x-3", "x", "x-3"] ∧
    ¬(["x-3", "x", "x-3"] : List String).Nodup := ⟨rfl, by decide⟩

/-- **C1 counterexample.** With colliding identifiers the ordered message
list is rebuilt through the id-keyed map, so its first entry is the
overwriting later message, whose `parentId` is not `null`. -/
theorem first_parent_cex :
    ((build_chat_payload dupIdConvoC1 false false false 0).1.map
        (fun ch : Chat => ch.messages.map ConvMsg.parentId)) =
      some [some "y", some "y-3", some "y"] := rfl

/-! ## C7: purity and the clock -/

/-- **C7 counterexample.** A conversation with no usable `create_time` or
`update_time` takes its effective timestamp from the wall clock
(`int(time.time())` inside `as_int_timestamp`): two invocations on the
same conversation at different clock readings return different chats. -/
theorem clock_dep_cex :
    ((build_chat_payload noTsConvo false false false 0).1.map
        (fun ch : Chat => ch.timestamp)) = some 0 ∧
    ((build_chat_payload noTsConvo false false false 1).1.map
        (fun ch : Chat => ch.timestamp)) = some 1 := ⟨rfl, rfl⟩

/-- **C7 (amended).** `build_chat_payload` is a pure function of its
arguments and the clock reading; whenever the conversation's effective
timestamp is clock-independent (e.g. its `create_time` coerces to a
number), the whole result is clock-independent. -/
theorem build_clock_independent (convo : Dict) (is it ke : Bool) (now1 now2 : Int)
    (h : convoTs convo now1 = convoTs convo now2) :
    build_chat_payload convo is it ke now1 = build_chat_payload convo is it ke now2 := by
  unfold build_chat_payload
  rw [h]


/-- Witness for the amended C7 at a conversation with a `create_time`. -/
theorem build_clock_independent_witness :
    convoTs specConvo 0 = convoTs specConvo 999 ∧
    build_chat_payload specConvo false false false 0 =
      build_chat_payload specConvo false false false 999 :=
  ⟨rfl, build_clock_independent _ false false false _ _ rfl⟩

/-! ## C5: rejection conditions -/

/-- **C5.** Linearization rejects (returns no chat, with zero converted
messages in the stats) exactly when the mapping is missing or empty, no
active leaf resolves, or zero messages survive filtering; in every other
case a chat is returned and the stats count is non-zero. -/
theorem build_reject_iff (convo : Dict) (is it ke : Bool) (now : Int) :
    ((build_chat_payload convo is it ke now).1 = none ↔
      (mappingOf convo = none ∨
       mappingOf convo = some [] ∨
       (∃ mapping, mappingOf convo = some mapping ∧
          resolveLeaf mapping (lookupKey convo "current_node") = none) ∨
       (∃ mapping leaf, mappingOf convo = some mapping ∧
          resolveLeaf mapping (lookupKey convo "current_node") = some leaf ∧
          (convertMessages is it ke (convoTs convo now)
            (((walkChain mapping (mapping.length + 1) [] leaf).reverse).map
              Prod.snd)).ordered_ids = []))) ∧
    ((build_chat_payload convo is it ke now).1 = none →
      (build_chat_payload convo is it ke now).2.converted_messages = 0) ∧
    ((build_chat_payload convo is it ke now).1 ≠ none →
      (build_chat_payload convo is it ke now).2.converted_messages ≠ 0) := by
  unfold build_chat_payload
  cases hm : mappingOf convo with
  | none => simp
  | some mapping =>
      simp only
      by_cases he : mapping.isEmpty
      · have hnil : mapping = [] := List.isEmpty_iff.mp he
        subst hnil
        simp [he]
      · rw [if_neg (by simpa using he)]
        cases hl : resolveLeaf mapping (lookupKey convo "current_node") with
        | none =>
            refine ⟨iff_of_true rfl (Or.inr (Or.inr (Or.inl ⟨mapping, rfl, hl⟩))),
              fun _ => rfl, fun hne => absurd rfl hne⟩
        | some leaf =>
            simp only
            by_cases ho : (convertMessages is it ke (convoTs convo now)
                (((walkChain mapping (mapping.length + 1) [] leaf).reverse).map
                  Prod.snd)).ordered_ids = []
            · rw [if_pos (List.isEmpty_iff.mpr ho)]
              refine ⟨iff_of_true rfl
                (Or.inr (Or.inr (Or.inr ⟨mapping, leaf, rfl, hl, ho⟩))),
                fun _ => rfl, fun hne => absurd rfl hne⟩
            · rw [if_neg (fun hcon => ho (List.isEmpty_iff.mp hcon))]
              refine ⟨⟨fun hco => Option.noConfusion hco, ?_⟩,
                fun hco => Option.noConfusion hco, fun _ hlen => ho ?_⟩
              · rintro (h | h | ⟨m, hme, hl2⟩ | ⟨m, l2, hme, hl2, hc2⟩)
                · exact Option.noConfusion h
                · have hnil : mapping = [] := by injection h
                  subst hnil
                  simp at he
                · have hmm : m = mapping := by
                    injection hme with h3
                    exact h3.symm
                  subst hmm
                  exact Option.noConfusion (hl.symm.trans hl2)
                · have hmm : m = mapping := by
                    injection hme with h3
                    exact h3.symm
                  subst hmm
                  have hll : l2 = leaf := by
                    have h5 := hl.symm.trans hl2
                    injection h5 with h4
                    exact h4.symm
                  subst hll
                  exact absurd hc2 ho
              · exact List.length_eq_zero.mp hlen

/-! ## C8: the ancestry walk -/

theorem filter_impl_length_le (l : List String) (p q : String → Bool)
    (h : ∀ a, p a = true → q a = true) : (l.filter p).length ≤ (l.filter q).length := by
  induction l with
  | nil => simp
  | cons a t ih =>
      rw [List.filter_cons, List.filter_cons]
      by_cases hp : p a = true
      · rw [if_pos hp, if_pos (h a hp)]
        simpa using ih
      · rw [if_neg hp]
        cases hq : q a <;> simp <;> omega

theorem countUnvisited_lt (mapping : List (String × Dict)) (visited : List String)
    (nid : String) (hmem : containsKey mapping nid = true) (hnv : nid ∉ visited) :
    countUnvisited mapping (nid :: visited) < countUnvisited mapping visited := by
  induction mapping with
  | nil => simp [containsKey] at hmem
  | cons kv rest ih =>
      obtain ⟨k0, v0⟩ := kv
      rw [containsKey_cons] at hmem
      unfold countUnvisited at ih ⊢
      rw [List.map_cons, List.filter_cons, List.filter_cons]
      by_cases hk : k0 = nid
      · subst hk
        rw [if_neg (by simp), if_pos (by simpa using hnv)]
        have hle := filter_impl_length_le (rest.map Prod.fst)
          (fun k => decide (k ∉ k0 :: visited)) (fun k => decide (k ∉ visited))
          (fun a ha => by
            simp only [decide_eq_true_eq, List.mem_cons] at ha ⊢
            exact fun hv => ha (Or.inr hv))
        simpa using Nat.lt_succ_of_le hle
      · have hmem2 : containsKey rest nid = true := by
          rcases Bool.or_eq_true_iff.mp hmem with h1 | h1
          · exact absurd (by simpa using h1) hk
          · exact h1
        have hlt := ih hmem2
        by_cases hkv : k0 ∈ visited
        · rw [if_neg (by simp [hkv]), if_neg (by simp [hkv])]
          exact hlt
        · rw [if_pos (by simp [hkv, hk]), if_pos (by simp [hkv])]
          simpa using hlt

theorem walkChain_succ (mapping : List (String × Dict)) (fuel : Nat)
    (visited : List String) (nid : String) :
    walkChain mapping (fuel + 1) visited nid =
      match lookupKey mapping nid with
      | none => []
      | some node =>
          if nid ∈ visited then []
          else
            (nid, node) ::
              (match lookupKey node "parent" with
               | some (.str pid) => walkChain mapping fuel (nid :: visited) pid
               | _ => []) := rfl

/-- Auxiliary induction for C8, generalising the visited set: with enough
fuel, the walked chain visits pairwise distinct ids outside `visited`, is
empty exactly when the start id is not a fresh mapping key, and its last
node stops only for one of the three loop-exit reasons. -/
theorem walkChain_go_spec (mapping : List (String × Dict)) :
    ∀ (fuel : Nat) (visited : List String) (nid : String),
      countUnvisited mapping visited < fuel →
      ((walkChain mapping fuel visited nid).map Prod.fst).Nodup ∧
      (∀ i ∈ (walkChain mapping fuel visited nid).map Prod.fst, i ∉ visited) ∧
      (walkChain mapping fuel visited nid = [] ↔
        (lookupKey mapping nid = none ∨ nid ∈ visited)) ∧
      (∀ last, (walkChain mapping fuel visited nid).getLast? = some last →
        lookupKey mapping last.1 = some last.2 ∧
        (parentStr last.2 = none ∨
         ∃ p, parentStr last.2 = some p ∧
           (lookupKey mapping p = none ∨ p ∈ visited ∨
            p ∈ (walkChain mapping fuel visited nid).map Prod.fst))) := by
  intro fuel
  induction fuel with
  | zero => intro visited nid h; omega
  | succ fuel ih =>
      intro visited nid h
      cases hlk : lookupKey mapping nid with
      | none =>
          rw [walkChain_succ, hlk]
          simp
      | some node =>
          by_cases hv : nid ∈ visited
          · rw [walkChain_succ, hlk]
            simp [hv]
          · cases hp : lookupKey node "parent" with
            | some pv =>
                cases pv with
                | str pid =>
                    have hchain : walkChain mapping (fuel + 1) visited nid =
                        (nid, node) :: walkChain mapping fuel (nid :: visited) pid := by
                      rw [walkChain_succ, hlk]
                      simp only [hp, if_neg hv]
                    have hcount : countUnvisited mapping (nid :: visited) < fuel := by
                      have h1 := countUnvisited_lt mapping visited nid
                        (containsKey_of_lookup mapping nid node hlk) hv
                      omega
                    obtain ⟨hnd, hmem, hiff, hlast⟩ := ih (nid :: visited) pid hcount
                    rw [hchain]
                    refine ⟨?_, ?_, ?_, ?_⟩
                    · rw [List.map_cons, List.nodup_cons]
                      exact ⟨fun hin => (hmem nid hin) (List.mem_cons_self _ _), hnd⟩
                    · intro i hi
                      rcases List.mem_cons.mp hi with h1 | h1
                      · subst h1; exact hv
                      · exact fun hvv => (hmem i h1) (List.mem_cons_of_mem _ hvv)
                    · exact iff_of_false (List.cons_ne_nil _ _)
                        (fun hor => hor.elim
                          (fun h1 => Option.noConfusion h1) hv)
                    · cases hrest : walkChain mapping fuel (nid :: visited) pid with
                      | nil =>
                          intro last hl
                          simp only [List.getLast?_singleton, Option.some.injEq] at hl
                          subst hl
                          refine ⟨hlk, Or.inr ⟨pid, by simp [parentStr, hp], ?_⟩⟩
                          rcases hiff.mp hrest with h1 | h1
                          · exact Or.inl h1
                          · rcases List.mem_cons.mp h1 with h2 | h2
                            · subst h2; exact Or.inr (Or.inr (by simp))
                            · exact Or.inr (Or.inl h2)
                      | cons r rs =>
                          intro last hl
                          rw [List.getLast?_cons_cons] at hl
                          obtain ⟨hlk2, hpar⟩ := hlast last (by rw [hrest]; exact hl)
                          refine ⟨hlk2, ?_⟩
                          rcases hpar with h1 | ⟨p, hps, h2⟩
                          · exact Or.inl h1
                          · refine Or.inr ⟨p, hps, ?_⟩
                            rcases h2 with h3 | h3 | h3
                            · exact Or.inl h3
                            · rcases List.mem_cons.mp h3 with h4 | h4
                              · subst h4
                                exact Or.inr (Or.inr (by simp))
                              · exact Or.inr (Or.inl h4)
                            · refine Or.inr (Or.inr ?_)
                              rw [List.map_cons, List.mem_cons]
                              right
                              rw [hrest] at h3
                              exact h3
                | nul | bool _ | num _ | arr _ | obj _ =>
                    have hchain : walkChain mapping (fuel + 1) visited nid =
                        [(nid, node)] := by
                      rw [walkChain_succ, hlk]
                      simp only [hp, if_neg hv]
                    rw [hchain]
                    refine ⟨by simp, ?_, ?_, ?_⟩
                    · intro i hi
                      rcases List.mem_cons.mp hi with h1 | h1
                      · subst h1; exact hv
                      · cases h1
                    · exact iff_of_false (List.cons_ne_nil _ _)
                        (fun hor => hor.elim
                          (fun h1 => Option.noConfusion h1) hv)
                    · intro last hl
                      simp only [List.getLast?_singleton, Option.some.injEq] at hl
                      subst hl
                      exact ⟨hlk, Or.inl (by simp [parentStr, hp])⟩
            | none =>
                have hchain : walkChain mapping (fuel + 1) visited nid = [(nid, node)] := by
                  rw [walkChain_succ, hlk]
                  simp only [hp, if_neg hv]
                rw [hchain]
                refine ⟨by simp, ?_, ?_, ?_⟩
                · intro i hi
                  rcases List.mem_cons.mp hi with h1 | h1
                  · subst h1; exact hv
                  · cases h1
                · exact iff_of_false (List.cons_ne_nil _ _)
                    (fun hor => hor.elim
                      (fun h1 => Option.noConfusion h1) hv)
                · intro last hl
                  simp only [List.getLast?_singleton, Option.some.injEq] at hl
                  subst hl
                  exact ⟨hlk, Or.inl (by simp [parentStr, hp])⟩

/-- **C8.** On every mapping (cycles included) the walk from any start id
visits each node id at most once, consumes the walked chain only from
mapping keys, and stops exactly at a node whose parent is absent or not a
string, not a mapping key, or already visited.  Run at the fuel used by
`build_chat_payload`, which the termination measure never exhausts. -/
theorem walkChain_terminates (mapping : List (String × Dict)) (start : String) :
    ((walkChain mapping (mapping.length + 1) [] start).map Prod.fst).Nodup ∧
    (walkChain mapping (mapping.length + 1) [] start = [] ↔
      lookupKey mapping start = none) ∧
    (∀ last, (walkChain mapping (mapping.length + 1) [] start).getLast? = some last →
      lookupKey mapping last.1 = some last.2 ∧
      (parentStr last.2 = none ∨
       ∃ p, parentStr last.2 = some p ∧
         (lookupKey mapping p = none ∨
          p ∈ (walkChain mapping (mapping.length + 1) [] start).map Prod.fst))) := by
  have hcnt : countUnvisited mapping [] < mapping.length + 1 := by
    unfold countUnvisited
    have hle := List.length_filter_le (fun k => decide (k ∉ ([] : List String)))
      (mapping.map Prod.fst)
    rw [List.length_map] at hle
    omega
  obtain ⟨hnd, hmem, hiff, hlast⟩ :=
    walkChain_go_spec mapping (mapping.length + 1) [] start hcnt
  refine ⟨hnd, ?_, ?_⟩
  · rw [hiff]
    simp
  · intro last hl
    obtain ⟨h1, h2⟩ := hlast last hl
    refine ⟨h1, ?_⟩
    rcases h2 with h3 | ⟨p, hp, h4⟩
    · exact Or.inl h3
    · refine Or.inr ⟨p, hp, ?_⟩
      rcases h4 with h5 | h5 | h5
      · exact Or.inl h5
      · cases h5
      · exact Or.inr h5

/-! ## C1: the linear-chain invariant -/

theorem mem_of_getLast?_eq (l : List String) (a : String) (h : l.getLast? = some a) :
    a ∈ l := by
  induction l with
  | nil => cases h
  | cons x t ih =>
      cases t with
      | nil =>
          simp only [List.getLast?_singleton, Option.some.injEq] at h
          subst h
          exact List.mem_singleton_self _
      | cons y s =>
          rw [List.getLast?_cons_cons] at h
          exact List.mem_cons_of_mem _ (ih h)

theorem lookup_of_containsKey {α : Type} (m : List (String × α)) (k : String)
    (h : containsKey m k = true) : ∃ v, lookupKey m k = some v := by
  cases hl : lookupKey m k with
  | none => rw [← containsKey_eq_false_iff] at hl; rw [h] at hl; cases hl
  | some v => exact ⟨v, rfl⟩

theorem containsKey_insertDict_self (m : List (String × ConvMsg)) (k : String) (v : ConvMsg) :
    containsKey (insertDict m k v) k = true :=
  containsKey_of_lookup _ _ _ (lookupKey_insertDict_self m k v)

theorem containsKey_insertDict_mono (m : List (String × ConvMsg)) (k k' : String)
    (v : ConvMsg) (h : containsKey m k' = true) :
    containsKey (insertDict m k v) k' = true := by
  by_cases hk : k' = k
  · subst hk
    exact containsKey_insertDict_self m k' v
  · obtain ⟨w, hw⟩ := lookup_of_containsKey m k' h
    exact containsKey_of_lookup _ _ w (by rw [lookupKey_insertDict_ne m k k' v hk]; exact hw)

theorem lookup_map_pair_self (msgs : List ConvMsg) (m : ConvMsg)
    (hnd : (msgs.map ConvMsg.id).Nodup) (hm : m ∈ msgs) :
    lookupKey (msgs.map (fun x => (x.id, x))) m.id = some m := by
  induction msgs with
  | nil => cases hm
  | cons a rest ih =>
      rw [List.map_cons, lookupKey_cons]
      rw [List.map_cons, List.nodup_cons] at hnd
      rcases List.mem_cons.mp hm with h1 | h1
      · subst h1
        rw [if_pos rfl]
      · rw [if_neg (fun he : a.id = m.id => hnd.1 (he ▸ List.mem_map_of_mem ConvMsg.id h1))]
        exact ih hnd.2 h1

theorem containsKey_map_pair_false (msgs : List ConvMsg) (i : String)
    (h : i ∉ msgs.map ConvMsg.id) :
    containsKey (msgs.map (fun x => (x.id, x))) i = false := by
  induction msgs with
  | nil => simp [containsKey]
  | cons a rest ih =>
      rw [List.map_cons, containsKey_cons]
      rw [List.map_cons, List.mem_cons] at h
      push_neg at h
      rw [ih h.2]
      simp only [Bool.or_false, beq_eq_false_iff_ne, ne_eq]
      exact fun he => h.1 he.symm

theorem rebuild_messages (msgs : List ConvMsg)
    (hnd : (msgs.map ConvMsg.id).Nodup) :
    (msgs.map ConvMsg.id).map
      (fun i => (lookupKey (msgs.map (fun x => (x.id, x))) i).getD dummyMsg) = msgs := by
  induction msgs with
  | nil => simp
  | cons a rest ih =>
      have hnd2 : a.id ∉ rest.map ConvMsg.id ∧ (rest.map ConvMsg.id).Nodup := by
        rw [List.map_cons, List.nodup_cons] at hnd
        exact hnd
      simp only [List.map_cons]
      congr 1
      · rw [lookupKey_cons, if_pos rfl]
        rfl
      · have hcg : (rest.map ConvMsg.id).map
            (fun i => (lookupKey ((a.id, a) :: rest.map (fun x => (x.id, x))) i).getD dummyMsg) =
            (rest.map ConvMsg.id).map
            (fun i => (lookupKey (rest.map (fun x => (x.id, x))) i).getD dummyMsg) := by
          apply List.map_congr_left
          intro i hi
          rw [lookupKey_cons, if_neg (fun he : a.id = i => hnd2.1 (he ▸ hi))]
        rw [hcg, ih hnd2.2]

theorem setLastChild_map_id (c : String) (msgs : List ConvMsg) :
    (setLastChild c msgs).map ConvMsg.id = msgs.map ConvMsg.id := by
  induction msgs with
  | nil => rfl
  | cons m rest ih =>
      cases rest with
      | nil => rfl
      | cons r rs =>
          show ((m :: setLastChild c (r :: rs)).map ConvMsg.id) = _
          rw [List.map_cons, List.map_cons, ih]

theorem appendChildTo_map_pair (msgs : List ConvMsg) (lid c : String)
    (hnd : (msgs.map ConvMsg.id).Nodup)
    (hlast : (msgs.map ConvMsg.id).getLast? = some lid) :
    appendChildTo (msgs.map (fun x => (x.id, x))) lid c =
      (setLastChild c msgs).map (fun x => (x.id, x)) := by
  induction msgs with
  | nil => cases hlast
  | cons m rest ih =>
      cases rest with
      | nil =>
          rw [List.map_cons] at hlast
          simp only [List.map_nil, List.getLast?_singleton, Option.some.injEq] at hlast
          show appendChildTo [(m.id, m)] lid c = _
          rw [appendChildTo_cons, if_pos hlast]
          rfl
      | cons r rs =>
          rw [List.map_cons, List.map_cons, List.getLast?_cons_cons, ← List.map_cons] at hlast
          rw [List.map_cons, List.nodup_cons] at hnd
          have hmem : lid ∈ (r :: rs).map ConvMsg.id := mem_of_getLast?_eq _ _ hlast
          show appendChildTo ((m.id, m) :: (r :: rs).map (fun x => (x.id, x))) lid c = _
          rw [appendChildTo_cons, if_neg (fun he : m.id = lid => hnd.1 (he ▸ hmem)), ih hnd.2 hlast]
          rfl

theorem chain_snoc (msgs : List ConvMsg) (newm : ConvMsg) (lid : String) :
    ∀ p, chainFrom p msgs →
      (msgs.map ConvMsg.id).getLast? = some lid →
      newm.parentId = some lid →
      newm.childrenIds = [] →
      chainFrom p (setLastChild newm.id msgs ++ [newm]) := by
  induction msgs with
  | nil => intro p _ hlast; cases hlast
  | cons m rest ih =>
      intro p hch hlast hpar hemp
      obtain ⟨h1, h2, h3⟩ := hch
      cases rest with
      | nil =>
          rw [List.map_cons, List.map_nil, List.getLast?_singleton,
            Option.some.injEq] at hlast
          show chainFrom p ({ m with childrenIds := m.childrenIds ++ [newm.id] } :: [newm])
          refine ⟨h1, ?_, ?_, hemp, trivial⟩
          · simp only at h2
            rw [h2]
            rfl
          · rw [hpar, ← hlast]
      | cons r rs =>
          have hlast2 : ((r :: rs).map ConvMsg.id).getLast? = some lid := by
            rw [List.map_cons, List.map_cons, List.getLast?_cons_cons,
              ← List.map_cons] at hlast
            exact hlast
          have hih := ih (some m.id) h3 hlast2 hpar hemp
          show chainFrom p (m :: (setLastChild newm.id (r :: rs) ++ [newm]))
          refine ⟨h1, ?_, hih⟩
          cases rs with
          | nil => simpa using h2
          | cons r2 rr => simpa using h2

theorem childLinkedMap_lookup_id (map : List (String × ConvMsg)) (li : Option String)
    (mid k : String) (v : ConvMsg)
    (h : lookupKey (childLinkedMap map li mid) k = some v) :
    ∃ v0, lookupKey map k = some v0 ∧ v.id = v0.id := by
  cases li with
  | none => exact ⟨v, h, rfl⟩
  | some lid =>
      simp only [childLinkedMap] at h
      by_cases hc : containsKey map lid
      · rw [if_pos hc, lookupKey_appendChildTo] at h
        by_cases hk : k = lid
        · rw [if_pos hk] at h
          cases hl : lookupKey map lid with
          | none => rw [hl] at h; cases h
          | some v0 =>
              rw [hl] at h
              simp only [Option.map_some', Option.some.injEq] at h
              subst hk
              exact ⟨v0, hl, by rw [← h]⟩
        · rw [if_neg hk] at h
          exact ⟨v, h, rfl⟩
      · rw [if_neg hc] at h
        exact ⟨v, h, rfl⟩

theorem childLinkedMap_contains (map : List (String × ConvMsg)) (li : Option String)
    (mid i : String) :
    containsKey (childLinkedMap map li mid) i = containsKey map i := by
  cases li with
  | none => rfl
  | some lid =>
      simp only [childLinkedMap]
      by_cases hc : containsKey map lid
      · rw [if_pos hc, containsKey_appendChildTo]
      · rw [if_neg hc]

theorem childLinkedMap_map_pair (msgs : List ConvMsg) (lid mid : String)
    (hnd : (msgs.map ConvMsg.id).Nodup)
    (hlast : (msgs.map ConvMsg.id).getLast? = some lid) :
    childLinkedMap (msgs.map (fun x => (x.id, x))) (some lid) mid =
      (setLastChild mid msgs).map (fun x => (x.id, x)) := by
  have hmem : lid ∈ msgs.map ConvMsg.id := mem_of_getLast?_eq _ _ hlast
  obtain ⟨m, hm, hid⟩ := List.mem_map.mp hmem
  have hck : containsKey (msgs.map (fun x => (x.id, x))) lid = true := by
    apply containsKey_of_lookup _ _ m
    rw [← hid]
    exact lookup_map_pair_self msgs m hnd hm
  simp only [childLinkedMap]
  rw [if_pos hck, appendChildTo_map_pair msgs lid mid hnd hlast]

theorem step_core (st : BuildState) (mid : String) (conv : ConvMsg) (models2 : List String)
    (hstruct : StructInv st) (hchain : ChainInv st)
    (hid : conv.id = mid) (hpar : conv.parentId = st.last_id) (hch : conv.childrenIds = []) :
    StructInv ⟨insertDict (childLinkedMap st.messages_map st.last_id mid) mid conv,
               st.ordered_ids ++ [mid], models2, some mid⟩ ∧
    ChainInv ⟨insertDict (childLinkedMap st.messages_map st.last_id mid) mid conv,
              st.ordered_ids ++ [mid], models2, some mid⟩ := by
  constructor
  · constructor
    · intro k v hkv
      simp only at hkv ⊢
      by_cases hk : k = mid
      · subst hk
        rw [lookupKey_insertDict_self] at hkv
        injection hkv with h
        rw [← h]
        exact hid
      · rw [lookupKey_insertDict_ne _ _ _ _ hk] at hkv
        obtain ⟨v0, hv0, hideq⟩ := childLinkedMap_lookup_id _ _ _ _ _ hkv
        rw [hideq]
        exact hstruct.1 k v0 hv0
    · intro i hi
      simp only at hi ⊢
      rcases List.mem_append.mp hi with h1 | h1
      · exact containsKey_insertDict_mono _ _ _ _
          (by rw [childLinkedMap_contains]; exact hstruct.2 i h1)
      · rw [List.mem_singleton] at h1
        subst h1
        exact containsKey_insertDict_self _ _ _
  · intro hnd'
    simp only at hnd' ⊢
    have hordnd : st.ordered_ids.Nodup := (List.nodup_append.mp hnd').1
    have hfresh : mid ∉ st.ordered_ids := by
      have hdisj := (List.nodup_append.mp hnd').2.2
      intro hmem
      exact hdisj hmem (List.mem_singleton_self mid)
    obtain ⟨msgs, hmap, hids, hlid, hcf⟩ := hchain hordnd
    cases hgl : st.ordered_ids.getLast? with
    | none =>
        have hordnil : st.ordered_ids = [] := List.getLast?_eq_none_iff.mp hgl
        have hmsgsnil : msgs = [] := by
          have h2 := hids
          rw [hordnil] at h2
          exact List.map_eq_nil_iff.mp h2
        have hlin : st.last_id = none := by rw [hlid, hgl]
        refine ⟨[conv], ?_, ?_, ?_, ?_, ?_, trivial⟩
        · subst hmsgsnil
          simp only [List.map_nil] at hmap
          rw [hmap, hlin]
          simp [childLinkedMap, insertDict, hid]
        · rw [hordnil]
          simp [hid]
        · rw [hordnil]
          rfl
        · rw [hpar, hlin]
        · simpa using hch
    | some lid =>
        have hlin : st.last_id = some lid := by rw [hlid, hgl]
        have hmnd : (msgs.map ConvMsg.id).Nodup := by rw [hids]; exact hordnd
        have hmlast : (msgs.map ConvMsg.id).getLast? = some lid := by rw [hids]; exact hgl
        refine ⟨setLastChild mid msgs ++ [conv], ?_, ?_, ?_, ?_⟩
        · rw [hmap, hlin, childLinkedMap_map_pair msgs lid mid hmnd hmlast,
            insertDict_of_fresh]
          · rw [List.map_append]
            congr 1
            simp [hid]
          · apply containsKey_map_pair_false
            rw [setLastChild_map_id, hids]
            exact hfresh
        · rw [List.map_append, setLastChild_map_id, hids]
          simp [hid]
        · rw [List.getLast?_concat]
        · have hsn := chain_snoc msgs conv lid none hcf hmlast (by rw [hpar, hlin]) hch
          rw [hid] at hsn
          exact hsn

theorem processNode_preserves (is it ke : Bool) (ts : Int) (node : Dict) (st : BuildState)
    (hstruct : StructInv st) (hchain : ChainInv st) :
    StructInv (processNode is it ke ts st node) ∧
    ChainInv (processNode is it ke ts st node) := by
  unfold processNode
  cases hm : lookupKey node "message" with
  | none => exact ⟨hstruct, hchain⟩
  | some v =>
      cases v with
      | obj msg =>
          simp only
          by_cases hr : allowed_role (roleOfMsg msg) is it = true
          · rw [if_pos hr]
            by_cases hc : extract_text (lookupKey msg "content") = "" ∧ ¬ke = true
            · rw [if_pos hc]
              exact ⟨hstruct, hchain⟩
            · rw [if_neg hc]
              exact step_core st _ _ _ hstruct hchain rfl rfl rfl
          · rw [if_neg hr]
            exact ⟨hstruct, hchain⟩
      | nul => exact ⟨hstruct, hchain⟩
      | bool b => exact ⟨hstruct, hchain⟩
      | num n => exact ⟨hstruct, hchain⟩
      | str s => exact ⟨hstruct, hchain⟩
      | arr xs => exact ⟨hstruct, hchain⟩

theorem convert_inv (is it ke : Bool) (ts : Int) (nodes : List Dict) :
    StructInv (convertMessages is it ke ts nodes) ∧
    ChainInv (convertMessages is it ke ts nodes) := by
  unfold convertMessages
  have hinit : StructInv ⟨[], [], [], none⟩ ∧ ChainInv ⟨[], [], [], none⟩ := by
    refine ⟨⟨?_, ?_⟩, ?_⟩
    · intro k v hkv
      rw [lookupKey_nil] at hkv
      cases hkv
    · intro i hi
      cases hi
    · intro _
      exact ⟨[], rfl, rfl, rfl, trivial⟩
  have hgen : ∀ (l : List Dict) (st : BuildState), StructInv st ∧ ChainInv st →
      StructInv (l.foldl (processNode is it ke ts) st) ∧
      ChainInv (l.foldl (processNode is it ke ts) st) := by
    intro l
    induction l with
    | nil => intro st h; exact h
    | cons n rest ih =>
        intro st h
        rw [List.foldl_cons]
        exact ih _ (processNode_preserves is it ke ts n st h.1 h.2)
  exact hgen nodes _ hinit

theorem messages_ids_eq_ordered (st : BuildState) (hstruct : StructInv st) :
    (st.ordered_ids.map
        (fun i => (lookupKey st.messages_map i).getD dummyMsg)).map ConvMsg.id =
      st.ordered_ids := by
  rw [List.map_map]
  have hcg : st.ordered_ids.map (ConvMsg.id ∘ fun i =>
      (lookupKey st.messages_map i).getD dummyMsg) =
      st.ordered_ids.map (fun i => i) := by
    apply List.map_congr_left
    intro i hi
    obtain ⟨v, hv⟩ := lookup_of_containsKey _ _ (hstruct.2 i hi)
    simp only [Function.comp_apply, hv, Option.getD_some]
    exact hstruct.1 i v hv
  rw [hcg, List.map_id']

/-- **C1 (amended).** Every accepted conversation whose assigned message
identifiers are pairwise distinct converts to a single linear chain: the
first message has no parent, every later message's parent is the previous
one, `childrenIds` is exactly the next message (empty for the last), the
keyed-by-id view maps each message's id to it, and `currentId` is the last
message's id.  Distinctness is necessary: see the C1/C2 counterexamples. -/
theorem build_linear_chain (convo : Dict) (is it ke : Bool) (now : Int)
    (chat : Chat) (stats : Stats)
    (hb : build_chat_payload convo is it ke now = (some chat, stats))
    (hnd : (chat.messages.map ConvMsg.id).Nodup) :
    chat.messages ≠ [] ∧
    chainFrom none chat.messages ∧
    (∀ m ∈ chat.messages, lookupKey chat.historyMessages m.id = some m) ∧
    (chat.messages.getLast?).map ConvMsg.id = some chat.currentId := by
  unfold build_chat_payload at hb
  cases hmm : mappingOf convo with
  | none =>
      simp only [hmm] at hb
      simp only [Prod.mk.injEq] at hb
      exact absurd hb.1 (by simp)
  | some mapping =>
      simp only [hmm] at hb
      by_cases hemp : mapping.isEmpty
      · rw [if_pos hemp] at hb
        simp only [Prod.mk.injEq] at hb
        exact absurd hb.1 (by simp)
      · rw [if_neg hemp] at hb
        cases hleaf : resolveLeaf mapping (lookupKey convo "current_node") with
        | none =>
            simp only [hleaf] at hb
            simp only [Prod.mk.injEq] at hb
            exact absurd hb.1 (by simp)
        | some leaf =>
            simp only [hleaf] at hb
            by_cases hord : (convertMessages is it ke (convoTs convo now)
                (((walkChain mapping (mapping.length + 1) [] leaf).reverse).map
                  Prod.snd)).ordered_ids.isEmpty
            · rw [if_pos hord] at hb
              simp only [Prod.mk.injEq] at hb
              exact absurd hb.1 (by simp)
            · rw [if_neg hord] at hb
              have hchat : chat = assembleChat convo (convoTs convo now)
                  (convertMessages is it ke (convoTs convo now)
                    (((walkChain mapping (mapping.length + 1) [] leaf).reverse).map
                      Prod.snd)) := by
                have h1 := congrArg Prod.fst hb
                simp only at h1
                exact (Option.some.inj h1).symm
              subst hchat
              obtain ⟨hstruct, hchain⟩ := convert_inv is it ke (convoTs convo now)
                (((walkChain mapping (mapping.length + 1) [] leaf).reverse).map Prod.snd)
              revert hnd hord hstruct hchain
              generalize (convertMessages is it ke (convoTs convo now)
                (((walkChain mapping (mapping.length + 1) [] leaf).reverse).map
                  Prod.snd)) = st
              intro hord hnd hstruct hchain
              have hmsgs : (assembleChat convo (convoTs convo now) st).messages =
                  st.ordered_ids.map
                    (fun i => (lookupKey st.messages_map i).getD dummyMsg) := rfl
              have hhist : (assembleChat convo (convoTs convo now) st).historyMessages =
                  st.messages_map := rfl
              have hcur : (assembleChat convo (convoTs convo now) st).currentId =
                  (st.ordered_ids.getLast?).getD "" := rfl
              rw [hmsgs] at hnd ⊢
              rw [messages_ids_eq_ordered st hstruct] at hnd
              obtain ⟨msgs, hmap, hids, hlid, hcf⟩ := hchain hnd
              have hmnd : (msgs.map ConvMsg.id).Nodup := by rw [hids]; exact hnd
              have hmsgseq : st.ordered_ids.map
                  (fun i => (lookupKey st.messages_map i).getD dummyMsg) = msgs := by
                rw [hmap, ← hids]
                exact rebuild_messages msgs hmnd
              rw [hmsgseq]
              have hmsgs_ne : msgs ≠ [] := by
                intro hmn
                rw [hmn] at hids
                rw [← hids] at hord
                simp at hord
              refine ⟨hmsgs_ne, hcf, ?_, ?_⟩
              · intro m hm2
                rw [hhist, hmap]
                exact lookup_map_pair_self msgs m hmnd hm2
              · rw [hcur, ← List.getLast?_map, hids]
                cases hgl : st.ordered_ids.getLast? with
                | none =>
                    rw [List.getLast?_eq_none_iff] at hgl
                    rw [hgl] at hids
                    exact absurd (List.map_eq_nil_iff.mp hids) hmsgs_ne
                | some l => rfl

/-- Witness for the amended C1 on a two-message conversation. -/
theorem build_linear_chain_witness :
    build_chat_payload twoMsgConvo false false false 0 = (some twoMsgChat, twoMsgStats) ∧
    (twoMsgChat.messages.map ConvMsg.id).Nodup ∧
    (twoMsgChat.messages ≠ [] ∧
     chainFrom none twoMsgChat.messages ∧
     (∀ m ∈ twoMsgChat.messages, lookupKey twoMsgChat.historyMessages m.id = some m) ∧
     (twoMsgChat.messages.getLast?).map ConvMsg.id = some twoMsgChat.currentId) :=
  ⟨rfl, by decide,
   build_linear_chain twoMsgConvo false false false 0 twoMsgChat twoMsgStats rfl (by decide)⟩

/-! ## C4: state-file appends -/

theorem replayAppends_concat (file : List String) (calls : List CallRec) (c : CallRec) :
    replayAppends file (calls ++ [c]) =
      if c.succeeded then append_state_ids (replayAppends file calls) c.sids
      else replayAppends file calls := by
  unfold replayAppends
  rw [List.foldl_append]
  rfl

theorem runSingle_file_inv (oracle : Nat → PostResult) (f0 : List String)
    (st : RunState) (stat : Stats) (h : st.file = replayAppends f0 st.calls) :
    (runSingle oracle st stat).file = replayAppends f0 (runSingle oracle st stat).calls := by
  unfold runSingle
  cases oracle st.callIdx with
  | ok n =>
      simp only
      rw [replayAppends_concat, h]
      simp
  | err =>
      simp only
      rw [replayAppends_concat]
      simp only
      rw [if_neg (by simp)]
      exact h

theorem foldl_runSingle_file_inv (oracle : Nat → PostResult) (f0 : List String) :
    ∀ (chunk : List Stats) (st : RunState), st.file = replayAppends f0 st.calls →
      (chunk.foldl (runSingle oracle) st).file =
        replayAppends f0 (chunk.foldl (runSingle oracle) st).calls := by
  intro chunk
  induction chunk with
  | nil => intro st h; exact h
  | cons stat rest ih =>
      intro st h
      rw [List.foldl_cons]
      exact ih _ (runSingle_file_inv oracle f0 st stat h)

theorem runChunk_file_inv (oracle : Nat → PostResult) (cont : Bool) (f0 : List String)
    (st : RunState) (chunk : List Stats) (h : st.file = replayAppends f0 st.calls) :
    (runChunk oracle cont st chunk).file =
      replayAppends f0 (runChunk oracle cont st chunk).calls := by
  unfold runChunk
  by_cases ha : st.aborted = true
  · rw [if_pos ha]
    exact h
  · rw [if_neg ha]
    cases oracle st.callIdx with
    | ok n =>
        simp only
        rw [replayAppends_concat, h]
        simp
    | err =>
        simp only
        by_cases hc : cont = true
        · rw [if_pos hc]
          apply foldl_runSingle_file_inv
          simp only
          rw [replayAppends_concat]
          simp only
          rw [if_neg (by simp)]
          exact h
        · rw [if_neg hc]
          simp only
          rw [replayAppends_concat]
          simp only
          rw [if_neg (by simp)]
          exact h

theorem import_file_replay (oracle : Nat → PostResult) (cont : Bool)
    (chunk_size : Nat) (selected : List Stats) (file0 : List String) :
    (importWithChunks oracle cont chunk_size selected file0).file =
      replayAppends file0 (importWithChunks oracle cont chunk_size selected file0).calls := by
  unfold importWithChunks processChunks
  generalize (chunksOf (effectiveChunk chunk_size selected.length) selected.length selected) =
    chunks
  have hgen : ∀ (cs : List (List Stats)) (st : RunState),
      st.file = replayAppends file0 st.calls →
      (cs.foldl (runChunk oracle cont) st).file =
        replayAppends file0 (cs.foldl (runChunk oracle cont) st).calls := by
    intro cs
    induction cs with
    | nil => intro st h; exact h
    | cons c rest ih =>
        intro st h
        rw [List.foldl_cons]
        exact ih _ (runChunk_file_inv oracle cont file0 st c h)
  exact hgen chunks (initRunState file0) rfl

/-- **C4.** The final state file equals the initial one with exactly the
source ids of the successful delivery calls (bulk or individual) appended,
in call-confirmation order: ids are appended only immediately after a
success, never before an attempt, and never after a failure. -/
theorem import_state_file_eq (oracle : Nat → PostResult) (cont : Bool)
    (chunk_size : Nat) (selected : List Stats) (file0 : List String) :
    (importWithChunks oracle cont chunk_size selected file0).file =
      replayAppends file0
        (importWithChunks oracle cont chunk_size selected file0).calls :=
  import_file_replay oracle cont chunk_size selected file0

/-! ## C6: failure policy -/

theorem foldl_runSingle_spec (oracle : Nat → PostResult) :
    ∀ (chunk : List Stats) (st : RunState),
      ∃ newCalls : List CallRec,
        (chunk.foldl (runSingle oracle) st).calls = st.calls ++ newCalls ∧
        (∀ c ∈ newCalls, c.single = true) ∧
        (∀ stat ∈ chunk, ∃ c ∈ newCalls, c.single = true ∧
           c.sids = [appendSidOfStats stat]) ∧
        (chunk.foldl (runSingle oracle) st).aborted = st.aborted ∧
        (chunk.foldl (runSingle oracle) st).failed_count =
          st.failed_count + (newCalls.filter (fun c => c.single && !c.succeeded)).length ∧
        (chunk.foldl (runSingle oracle) st).imported_count =
          st.imported_count + ((newCalls.filter (fun c => c.succeeded)).map CallRec.n).sum := by
  intro chunk
  induction chunk with
  | nil =>
      intro st
      exact ⟨[], by simp, by simp, by simp, rfl, by simp, by simp⟩
  | cons stat rest ih =>
      intro st
      rw [List.foldl_cons]
      obtain ⟨nc, hcalls, hsingle, hretry, habort, hfail, himp⟩ :=
        ih (runSingle oracle st stat)
      cases horc : oracle st.callIdx with
      | ok n =>
          have hc1 : (runSingle oracle st stat).calls =
              st.calls ++ [⟨[appendSidOfStats stat], true, true, n⟩] := by
            unfold runSingle
            rw [horc]
          have hc2 : (runSingle oracle st stat).aborted = st.aborted := by
            unfold runSingle
            rw [horc]
          have hc3 : (runSingle oracle st stat).failed_count = st.failed_count := by
            unfold runSingle
            rw [horc]
          have hc4 : (runSingle oracle st stat).imported_count = st.imported_count + n := by
            unfold runSingle
            rw [horc]
          refine ⟨⟨[appendSidOfStats stat], true, true, n⟩ :: nc, ?_, ?_, ?_, ?_, ?_, ?_⟩
          · rw [hcalls, hc1, List.append_assoc]
            rfl
          · intro c hc
            rcases List.mem_cons.mp hc with h1 | h1
            · rw [h1]
            · exact hsingle c h1
          · intro s hs
            rcases List.mem_cons.mp hs with h1 | h1
            · exact ⟨⟨[appendSidOfStats stat], true, true, n⟩, List.mem_cons_self _ _,
                rfl, by rw [h1]⟩
            · obtain ⟨c, hcm, hcs, hcsids⟩ := hretry s h1
              exact ⟨c, List.mem_cons_of_mem _ hcm, hcs, hcsids⟩
          · rw [habort, hc2]
          · rw [hfail, hc3]
            simp
          · rw [himp, hc4]
            simp only [List.filter_cons]
            simp
            omega
      | err =>
          have hc1 : (runSingle oracle st stat).calls =
              st.calls ++ [⟨[appendSidOfStats stat], true, false, 0⟩] := by
            unfold runSingle
            rw [horc]
          have hc2 : (runSingle oracle st stat).aborted = st.aborted := by
            unfold runSingle
            rw [horc]
          have hc3 : (runSingle oracle st stat).failed_count = st.failed_count + 1 := by
            unfold runSingle
            rw [horc]
          have hc4 : (runSingle oracle st stat).imported_count = st.imported_count := by
            unfold runSingle
            rw [horc]
          refine ⟨⟨[appendSidOfStats stat], true, false, 0⟩ :: nc, ?_, ?_, ?_, ?_, ?_, ?_⟩
          · rw [hcalls, hc1, List.append_assoc]
            rfl
          · intro c hc
            rcases List.mem_cons.mp hc with h1 | h1
            · rw [h1]
            · exact hsingle c h1
          · intro s hs
            rcases List.mem_cons.mp hs with h1 | h1
            · exact ⟨⟨[appendSidOfStats stat], true, false, 0⟩, List.mem_cons_self _ _,
                rfl, by rw [h1]⟩
            · obtain ⟨c, hcm, hcs, hcsids⟩ := hretry s h1
              exact ⟨c, List.mem_cons_of_mem _ hcm, hcs, hcsids⟩
          · rw [habort, hc2]
          · rw [hfail, hc3]
            simp only [List.filter_cons]
            simp
            omega
          · rw [himp, hc4]
            simp

theorem runChunk_invT (oracle : Nat → PostResult) (st : RunState) (chunk : List Stats)
    (h : InvT st) : InvT (runChunk oracle true st chunk) := by
  obtain ⟨habort, hfail, himp, hretry⟩ := h
  unfold runChunk
  simp only [habort, Bool.false_eq_true, if_false]
  cases horc : oracle st.callIdx with
  | ok n =>
      simp only
      refine ⟨rfl, ?_, ?_, ?_⟩
      · show st.failed_count =
          (List.filter (fun c => c.single && !c.succeeded)
            (st.calls ++ [⟨chunk.map appendSidOfStats, false, true, n⟩])).length
        simp only [List.filter_append]
        simp [hfail]
      · show st.imported_count + n =
          ((List.filter (fun c => c.succeeded)
            (st.calls ++ [⟨chunk.map appendSidOfStats, false, true, n⟩])).map CallRec.n).sum
        simp only [List.filter_append, List.map_append, List.sum_append]
        simp [himp]
      · intro c hc hcs hcf
        simp only at hc
        rcases List.mem_append.mp hc with h1 | h1
        · intro sid hsid
          obtain ⟨c2, hc2m, hc2s, hc2sids⟩ := hretry c h1 hcs hcf sid hsid
          exact ⟨c2, List.mem_append_left _ hc2m, hc2s, hc2sids⟩
        · rw [List.mem_singleton] at h1
          rw [h1] at hcf
          cases hcf
  | err =>
      simp only [if_pos trivial]
      obtain ⟨nc, hcalls, hsingle, hretry2, habort2, hfail2, himp2⟩ :=
        foldl_runSingle_spec oracle chunk
          ⟨st.imported_count, st.failed_count, st.file,
           st.calls ++ [⟨chunk.map appendSidOfStats, false, false, 0⟩],
           st.callIdx + 1, false⟩
      refine ⟨by rw [habort2], ?_, ?_, ?_⟩
      · rw [hfail2, hcalls]
        simp only [List.filter_append, List.length_append]
        simp [hfail]
      · rw [himp2, hcalls]
        simp only [List.filter_append, List.map_append, List.sum_append]
        simp [himp]
      · intro c hc hcs hcf
        rw [hcalls] at hc
        simp only at hc
        rw [List.append_assoc] at hc
        rcases List.mem_append.mp hc with h1 | h1
        · intro sid hsid
          obtain ⟨c2, hc2m, hc2s, hc2sids⟩ := hretry c h1 hcs hcf sid hsid
          refine ⟨c2, ?_, hc2s, hc2sids⟩
          rw [hcalls]
          simp only
          rw [List.append_assoc]
          exact List.mem_append_left _ hc2m
        · rcases List.mem_append.mp h1 with h2 | h2
          · rw [List.mem_singleton] at h2
            subst h2
            intro sid hsid
            simp only at hsid
            obtain ⟨stat, hstat, hsideq⟩ := List.mem_map.mp hsid
            obtain ⟨c2, hc2m, hc2s, hc2sids⟩ := hretry2 stat hstat
            refine ⟨c2, ?_, hc2s, by rw [hc2sids, hsideq]⟩
            rw [hcalls]
            simp only
            rw [List.append_assoc]
            exact List.mem_append_right _ (List.mem_append_right _ hc2m)
          · rw [hsingle c h2] at hcs
            cases hcs

theorem runChunk_invF (oracle : Nat → PostResult) (st : RunState) (chunk : List Stats)
    (h : InvF st) : InvF (runChunk oracle false st chunk) := by
  obtain ⟨hiff, hpre⟩ := h
  unfold runChunk
  by_cases ha : st.aborted = true
  · rw [if_pos (by rw [ha])]
    exact ⟨hiff, hpre⟩
  · have hallok : ∀ c ∈ st.calls, c.succeeded = true := by
      intro c hc
      by_contra hne
      exact ha (hiff.mpr ⟨c, hc, Bool.eq_false_iff.mpr hne⟩)
    rw [if_neg (by rw [Bool.not_eq_true] at ha; rw [ha]; simp)]
    cases horc : oracle st.callIdx with
    | ok n =>
        simp only
        constructor
        · rw [Bool.not_eq_true] at ha
          rw [ha]
          constructor
          · intro hfalse
            cases hfalse
          · rintro ⟨c, hc, hcf⟩
            rcases List.mem_append.mp hc with h1 | h1
            · rw [hallok c h1] at hcf
              cases hcf
            · rw [List.mem_singleton] at h1
              rw [h1] at hcf
              cases hcf
        · intro c hc
          rw [List.dropLast_concat] at hc
          exact hallok c hc
    | err =>
        simp only [Bool.false_eq_true, if_false]
        constructor
        · constructor
          · intro _
            exact ⟨⟨chunk.map appendSidOfStats, false, false, 0⟩,
              List.mem_append_right _ (List.mem_singleton_self _), rfl⟩
          · intro _
            rfl
        · intro c hc
          rw [List.dropLast_concat] at hc
          exact hallok c hc

theorem processChunks_invT (oracle : Nat → PostResult) (chunks : List (List Stats))
    (st : RunState) (h : InvT st) : InvT (processChunks oracle true chunks st) := by
  unfold processChunks
  induction chunks generalizing st with
  | nil => exact h
  | cons c rest ih =>
      rw [List.foldl_cons]
      exact ih _ (runChunk_invT oracle st c h)

theorem processChunks_invF (oracle : Nat → PostResult) (chunks : List (List Stats))
    (st : RunState) (h : InvF st) : InvF (processChunks oracle false chunks st) := by
  unfold processChunks
  induction chunks generalizing st with
  | nil => exact h
  | cons c rest ih =>
      rw [List.foldl_cons]
      exact ih _ (runChunk_invF oracle st c h)

theorem initRunState_invT (f : List String) : InvT (initRunState f) :=
  ⟨rfl, rfl, rfl, fun c hc => absurd hc (List.not_mem_nil c)⟩

theorem initRunState_invF (f : List String) : InvF (initRunState f) :=
  ⟨⟨fun h => absurd h (by simp [initRunState]), fun ⟨c, hc, _⟩ => absurd hc (List.not_mem_nil c)⟩,
   fun c hc => absurd hc (by simp [initRunState])⟩

/-- **C6.** With fallback disabled a run aborts exactly when a call failed
and only the last call can have failed (the error propagates immediately,
nothing later is attempted); with fallback enabled the run never aborts,
the failure counter counts exactly the failed individual retries,
the imported counter sums the successful calls' results, every conversation of a
failed bulk chunk is retried by an individual call, and the process exit
status is success whenever fallback is enabled. -/
theorem delivery_failure_policy (oracle : Nat → PostResult) (chunk_size : Nat)
    (selected : List Stats) (file0 : List String) :
    ((importWithChunks oracle false chunk_size selected file0).aborted = true ↔
      ∃ c ∈ (importWithChunks oracle false chunk_size selected file0).calls,
        c.succeeded = false) ∧
    (∀ c ∈ (importWithChunks oracle false chunk_size selected file0).calls.dropLast,
      c.succeeded = true) ∧
    (importWithChunks oracle true chunk_size selected file0).aborted = false ∧
    (importWithChunks oracle true chunk_size selected file0).failed_count =
      ((importWithChunks oracle true chunk_size selected file0).calls.filter
        (fun c => c.single && !c.succeeded)).length ∧
    (importWithChunks oracle true chunk_size selected file0).imported_count =
      (((importWithChunks oracle true chunk_size selected file0).calls.filter
        (fun c => c.succeeded)).map CallRec.n).sum ∧
    (∀ c ∈ (importWithChunks oracle true chunk_size selected file0).calls,
      c.single = false → c.succeeded = false →
      ∀ sid ∈ c.sids,
        ∃ c2 ∈ (importWithChunks oracle true chunk_size selected file0).calls,
          c2.single = true ∧ c2.sids = [sid]) ∧
    exit_code_of (importWithChunks oracle true chunk_size selected file0).failed_count
      true = 0 := by
  have hF := processChunks_invF oracle
    (chunksOf (effectiveChunk chunk_size selected.length) selected.length selected)
    (initRunState file0) (initRunState_invF file0)
  have hT := processChunks_invT oracle
    (chunksOf (effectiveChunk chunk_size selected.length) selected.length selected)
    (initRunState file0) (initRunState_invT file0)
  refine ⟨hF.1, hF.2, hT.1, hT.2.1, hT.2.2.1, hT.2.2.2, ?_⟩
  unfold exit_code_of
  by_cases hf : (importWithChunks oracle true chunk_size selected file0).failed_count > 0
  · rw [if_pos ⟨hf, rfl⟩]
  · rw [if_neg (fun hand => hf hand.1), if_neg hf]

/-! ## C3: re-run skipping -/

theorem build_stats_source_id (convo : Dict) (is it ke : Bool) (now : Int) :
    (build_chat_payload convo is it ke now).2.source_id = lookupKey convo "id" := by
  unfold build_chat_payload
  cases hm : mappingOf convo with
  | none => rfl
  | some mapping =>
      simp only
      by_cases hemp : mapping.isEmpty
      · rw [if_pos hemp]
      · rw [if_neg hemp]
        cases hl : resolveLeaf mapping (lookupKey convo "current_node") with
        | none => rfl
        | some leaf =>
            simp only
            by_cases ho : (convertMessages is it ke (convoTs convo now)
                (((walkChain mapping (mapping.length + 1) [] leaf).reverse).map
                  Prod.snd)).ordered_ids.isEmpty
            · rw [if_pos ho]
            · rw [if_neg ho]

theorem selectLoop_skips (state_ids remote_ids : List String) (is it ke : Bool)
    (now : Int) (target : Option Nat) (sid : String) (hne : sid ≠ "")
    (hmem : sid ∈ state_ids) :
    ∀ (convos : List JsonV) (acc : List Stats) (s1 s2 : Nat),
      (∀ st ∈ acc, sidOfStats st ≠ sid) →
      ∀ st ∈ (selectLoop state_ids remote_ids is it ke now target convos acc s1 s2).1,
        sidOfStats st ≠ sid := by
  intro convos
  induction convos with
  | nil =>
      intro acc s1 s2 hacc st hst
      exact hacc st hst
  | cons c rest ih =>
      intro acc s1 s2 hacc
      cases c with
      | obj convo =>
          show ∀ st ∈ (selectLoop state_ids remote_ids is it ke now target
              (JsonV.obj convo :: rest) acc s1 s2).1, sidOfStats st ≠ sid
          unfold selectLoop
          simp only
          by_cases h1 : sidOfConvo convo ≠ "" ∧ sidOfConvo convo ∈ state_ids
          · rw [if_pos h1]
            exact ih acc (s1 + 1) s2 hacc
          · rw [if_neg h1]
            by_cases h2 : sidOfConvo convo ≠ "" ∧ sidOfConvo convo ∈ remote_ids
            · rw [if_pos h2]
              exact ih acc s1 (s2 + 1) hacc
            · rw [if_neg h2]
              cases hb : build_chat_payload convo is it ke now with
              | mk o stats =>
                  have hsid : sidOfStats stats ≠ sid := by
                    have hso : stats.source_id = lookupKey convo "id" := by
                      have h3 := build_stats_source_id convo is it ke now
                      rw [hb] at h3
                      exact h3
                    intro heq
                    apply h1
                    have hconv : sidOfConvo convo = sidOfStats stats := by
                      unfold sidOfConvo sidOfStats
                      rw [hso]
                    rw [hconv, heq]
                    exact ⟨hne, hmem⟩
                  cases o with
                  | none => exact ih acc s1 s2 hacc
                  | some chat =>
                      simp only
                      have hacc2 : ∀ st ∈ acc ++ [stats], sidOfStats st ≠ sid := by
                        intro st hst
                        rcases List.mem_append.mp hst with hA | hA
                        · exact hacc st hA
                        · rw [List.mem_singleton] at hA
                          rw [hA]
                          exact hsid
                      by_cases ht : targetReached target (acc ++ [stats]).length = true
                      · rw [if_pos ht]
                        exact hacc2
                      · rw [if_neg ht]
                        exact ih (acc ++ [stats]) s1 s2 hacc2
      | nul => exact ih acc s1 s2 hacc
      | bool b => exact ih acc s1 s2 hacc
      | num n => exact ih acc s1 s2 hacc
      | str s => exact ih acc s1 s2 hacc
      | arr xs => exact ih acc s1 s2 hacc

theorem mem_replayAppends_mono (sid : String) :
    ∀ (calls : List CallRec) (f : List String), sid ∈ f → sid ∈ replayAppends f calls := by
  intro calls
  induction calls with
  | nil => intro f h; exact h
  | cons c rest ih =>
      intro f h
      unfold replayAppends
      rw [List.foldl_cons]
      apply ih
      by_cases hs : c.succeeded = true
      · rw [if_pos hs]
        exact List.mem_append_left _ h
      · rw [if_neg hs]
        exact h

theorem mem_replayAppends (c : CallRec) (sid : String) (hsucc : c.succeeded = true)
    (hs : sid ∈ c.sids) (hne : sid ≠ "") :
    ∀ (calls : List CallRec) (f : List String), c ∈ calls → sid ∈ replayAppends f calls := by
  intro calls
  induction calls with
  | nil => intro f hc; cases hc
  | cons c0 rest ih =>
      intro f hc
      unfold replayAppends
      rw [List.foldl_cons]
      rcases List.mem_cons.mp hc with h1 | h1
      · subst h1
        apply mem_replayAppends_mono
        rw [if_pos hsucc]
        exact List.mem_append_right _ (List.mem_filter.mpr ⟨hs, by simp [hne]⟩)
      · exact ih _ h1

theorem mem_load_state_ids (file : List String) (sid : String) (hmem : sid ∈ file)
    (htrim : pyTrim sid = sid) (hne : sid ≠ "") : sid ∈ load_state_ids file := by
  unfold load_state_ids
  apply List.mem_filterMap.mpr
  exact ⟨sid, hmem, by simp only [htrim]; rw [if_neg hne]⟩

/-- **C3 (amended).** If a conversation's rendered source id is non-empty
and whitespace-trimmed, and some successful delivery call of the first run
contained it, then the second run's selection (over the state file as
updated by the first run, with unchanged remote dedup data) selects no
conversation with that source id.  Conversations whose `id` is missing or
renders empty are not protected (see the counterexample). -/
theorem reimport_skipped (conversations : List JsonV) (file0 remote_ids : List String)
    (is it ke : Bool) (now : Int) (target : Option Nat)
    (oracle : Nat → PostResult) (cont : Bool) (chunk_size : Nat) (sid : String)
    (hne : sid ≠ "") (htrim : pyTrim sid = sid)
    (hdeliv : ∃ c ∈ (importWithChunks oracle cont chunk_size
        (selectConvos conversations (load_state_ids file0) remote_ids
          is it ke now target).1 file0).calls,
      c.succeeded = true ∧ sid ∈ c.sids) :
    ∀ st ∈ (selectConvos conversations
        (load_state_ids (importWithChunks oracle cont chunk_size
          (selectConvos conversations (load_state_ids file0) remote_ids
            is it ke now target).1 file0).file)
        remote_ids is it ke now target).1,
      sidOfStats st ≠ sid := by
  obtain ⟨c, hcmem, hcsucc, hcsid⟩ := hdeliv
  have hfile : sid ∈ (importWithChunks oracle cont chunk_size
      (selectConvos conversations (load_state_ids file0) remote_ids
        is it ke now target).1 file0).file := by
    rw [import_file_replay]
    exact mem_replayAppends c sid hcsucc hcsid hne _ _ hcmem
  have hload := mem_load_state_ids _ sid hfile htrim hne
  intro st hst
  exact selectLoop_skips _ remote_ids is it ke now target sid hne hload
    conversations [] 0 0 (fun st2 hst2 => absurd hst2 (List.not_mem_nil st2)) st hst

/-- Witness for the amended C3: a delivered conversation with id `conv-1`
is not selected again. -/
theorem reimport_skipped_witness :
    ("conv-1" : String) ≠ "" ∧ pyTrim "conv-1" = "conv-1" ∧
    (∃ c ∈ (importWithChunks (fun _ => PostResult.ok 1) false 0
        (selectConvos [JsonV.obj specConvo] (load_state_ids []) []
          false false false 0 none).1 []).calls,
      c.succeeded = true ∧ "conv-1" ∈ c.sids) ∧
    (∀ st ∈ (selectConvos [JsonV.obj specConvo]
        (load_state_ids (importWithChunks (fun _ => PostResult.ok 1) false 0
          (selectConvos [JsonV.obj specConvo] (load_state_ids []) []
            false false false 0 none).1 []).file)
        [] false false false 0 none).1,
      sidOfStats st ≠ "conv-1") :=
  ⟨by decide, rfl,
   ⟨⟨["conv-1"], false, true, 1⟩, by decide, rfl, by decide⟩,
   reimport_skipped [JsonV.obj specConvo] [] [] false false false 0 none
     (fun _ => PostResult.ok 1) false 0 "conv-1" (by decide) rfl
     ⟨⟨["conv-1"], false, true, 1⟩, by decide, rfl, by decide⟩⟩

/-- **C3 counterexample.** A convertible conversation without an `id`
field is delivered in run 1 (appending the line `None`), yet run 2 selects
and imports it again: the pipeline is not re-run-safe for conversations
with a missing source id. -/
theorem reimport_cex :
    (importWithChunks (fun _ => PostResult.ok 1) false 0
      (selectConvos [JsonV.obj noIdConvo] (load_state_ids []) []
        false false false 0 none).1 []).file = ["None"] ∧
    (selectConvos [JsonV.obj noIdConvo] (load_state_ids []) []
      false false false 0 none).1.length = 1 ∧
    (selectConvos [JsonV.obj noIdConvo]
      (load_state_ids (importWithChunks (fun _ => PostResult.ok 1) false 0
        (selectConvos [JsonV.obj noIdConvo] (load_state_ids []) []
          false false false 0 none).1 []).file)
      [] false false false 0 none).1.length = 1 ∧
    (importWithChunks (fun _ => PostResult.ok 1) false 0
      (selectConvos [JsonV.obj noIdConvo]
        (load_state_ids (importWithChunks (fun _ => PostResult.ok 1) false 0
          (selectConvos [JsonV.obj noIdConvo] (load_state_ids []) []
            false false false 0 none).1 []).file)
        [] false false false 0 none).1
      (importWithChunks (fun _ => PostResult.ok 1) false 0
        (selectConvos [JsonV.obj noIdConvo] (load_state_ids []) []
          false false false 0 none).1 []).file).imported_count = 1 :=
  ⟨rfl, rfl, rfl, rfl⟩
